import Mathlib

/-!
Verification of the webvoxel-rpg meshing, serialization and chunk-management
code against its natural-language specification.

The TypeScript/JavaScript sources are embedded shallowly:

* `Meshing` models `src/src/game/world/meshing.ts` (`getVoxel`, `addQuad`,
  `greedyMeshing`). Voxel buffers (`Uint8Array`) are modelled as total
  functions `ℕ → ℕ` from the flat index to the stored byte; block values and
  mask entries are `ℤ` (the source stores the mask in an `Int32Array` and
  negates block ids). The imperative merge loops are modelled as
  fuel-indexed structural recursions; the fuel given at each call site
  strictly exceeds the number of iterations the source loop can perform, so
  the zero-fuel branch is never reached.
* `ChunkWorker` models the `addQuad` of `src/chunk.worker.ts`.
* `TerrainWorker` models `src/public/workers/optimized-terrain-worker.js`
  (face-culling mesher, `serializeVoxelData`, `deserializeVoxelData`).
* `EnhMgr` models the response handler of
  `src/src/game/world/ChunkManager.ts`.
* `OptMgr` models `OptimizedChunkManager` (`placeBlock`, `removeBlock`,
  `regenerateChunkMesh`, `updateNeighborChunksIfNeeded`).

Positions handed to the managers are modelled as integers (block
coordinates); `Math.floor(a / n)` on them is `Int.fdiv a n`.
-/

/-! ## Integer 3-vectors -/

/-- A 3-vector of integers, modelling a JS `[x, y, z]` triple. -/
structure V3 where
  x : ℤ
  y : ℤ
  z : ℤ
deriving DecidableEq, Repr

namespace V3

def add (a b : V3) : V3 := ⟨a.x + b.x, a.y + b.y, a.z + b.z⟩

def sub (a b : V3) : V3 := ⟨a.x - b.x, a.y - b.y, a.z - b.z⟩

def neg (a : V3) : V3 := ⟨-a.x, -a.y, -a.z⟩

def smul (k : ℤ) (a : V3) : V3 := ⟨k * a.x, k * a.y, k * a.z⟩

/-- Cross product, exactly as `addQuad` computes it componentwise. -/
def cross (a b : V3) : V3 :=
  ⟨a.y * b.z - a.z * b.y, a.z * b.x - a.x * b.z, a.x * b.y - a.y * b.x⟩

/-- Componentwise integer sign; for an axis-aligned vector this is the unit
vector in the same direction (the `unit(·)` of the specification). -/
def sgn (a : V3) : V3 := ⟨Int.sign a.x, Int.sign a.y, Int.sign a.z⟩

/-- The vector that is `val` on axis `a` (0 = x, 1 = y, 2 = z) and `0`
elsewhere, modelling the source pattern `const q = [0,0,0]; q[a] = val`. -/
def axis (a : ℕ) (val : ℤ) : V3 :=
  ⟨if a = 0 then val else 0, if a = 1 then val else 0, if a = 2 then val else 0⟩

end V3

namespace Meshing

/-- `getVoxel` of `meshing.ts`: bounds-checked read of the flat
`x + y*size + z*size*size` buffer, returning AIR (0) out of range. -/
def getVoxel (data : ℕ → ℕ) (x y z : ℤ) (size : ℕ) : ℤ :=
  if x < 0 ∨ (size : ℤ) ≤ x ∨ y < 0 ∨ (size : ℤ) ≤ y ∨ z < 0 ∨ (size : ℤ) ≤ z then 0
  else data (x + y * size + z * size * size).toNat

/-- One entry of the 2D mask `greedyMeshing` builds for sweep axis `d` at
plane position `p` (the source's `x[d]` before the `x[d]++`), mask cell
`(i, j)` with `i` along `u = (d+1)%3` and `j` along `v = (d+2)%3`:
`blockA = x[d] >= 0 ? getVoxel(x) : 0`,
`blockB = x[d] < size-1 ? getVoxel(x+q) : 0`,
`mask = blockA !== blockB ? (blockA !== 0 ? blockA : -blockB) : 0`. -/
def maskEntry (data : ℕ → ℕ) (S : ℕ) (d : ℕ) (p : ℤ) (i j : ℕ) : ℤ :=
  let u := (d + 1) % 3
  let v := (d + 2) % 3
  let xv := (V3.axis d p).add ((V3.axis u (i : ℤ)).add (V3.axis v (j : ℤ)))
  let q := V3.axis d 1
  let blockA := if 0 ≤ p then getVoxel data xv.x xv.y xv.z S else 0
  let blockB :=
    if p < (S : ℤ) - 1 then getVoxel data (xv.x + q.x) (xv.y + q.y) (xv.z + q.z) S else 0
  if blockA ≠ blockB then (if blockA ≠ 0 then blockA else -blockB) else 0

/-- The mask entry exactly as the specification words it: `blockA` is the
voxel at the plane (AIR if `plane = -1`), `blockB` the voxel one step
further along `d` (AIR if `plane = S-1`); `mask = blockA` if
`blockA ≠ 0 ∧ blockA ≠ blockB`, `mask = -blockB` if `blockB ≠ 0` and
differs from `blockA`, else `0`. Stated over the same bounds-checked
accessor; used only to compare with `maskEntry`. -/
def specMaskEntry (data : ℕ → ℕ) (S : ℕ) (d : ℕ) (p : ℤ) (i j : ℕ) : ℤ :=
  let u := (d + 1) % 3
  let v := (d + 2) % 3
  let xv := (V3.axis d p).add ((V3.axis u (i : ℤ)).add (V3.axis v (j : ℤ)))
  let q := V3.axis d 1
  let blockA := if p = -1 then 0 else getVoxel data xv.x xv.y xv.z S
  let blockB :=
    if p = (S : ℤ) - 1 then 0 else getVoxel data (xv.x + q.x) (xv.y + q.y) (xv.z + q.z) S
  if blockA ≠ 0 ∧ blockA ≠ blockB then blockA
  else if blockB ≠ 0 ∧ blockB ≠ blockA then -blockB
  else 0

/-! ### The merge step of `greedyMeshing`

The quad-merging loops of `meshing.ts` are embedded as fuel-indexed
structural recursions. Each call site passes a fuel that strictly exceeds
the number of iterations the corresponding `for`/`while` loop can perform
(`S` for the width/height growth loops, `S + 1` for the row scan and the
row iteration), so the fuel-exhausted branch is unreachable. -/

/-- The width-growth loop
`for (w = 1; i + w < chunkSize && mask[n + w] === currentBlock; w++) {}`. -/
def growW (mask : ℕ → ℤ) (S : ℕ) (c : ℤ) (n i : ℕ) : ℕ → ℕ → ℕ
  | w, 0 => w
  | w, fuel + 1 =>
    if i + w < S ∧ mask (n + w) = c then growW mask S c n i (w + 1) fuel else w

/-- The height-growth loop: `h` advances while `j + h < chunkSize` and every
cell of the next `v`-row over `[i, i+w)` still equals `currentBlock` (the
source's inner `k` loop with the `done` flag). -/
def growH (mask : ℕ → ℤ) (S : ℕ) (c : ℤ) (n j w : ℕ) : ℕ → ℕ → ℕ
  | h, 0 => h
  | h, fuel + 1 =>
    if j + h < S ∧ (∀ k < w, mask (n + k + h * S) = c) then
      growH mask S c n j w (h + 1) fuel
    else h

/-- Zeroing the consumed `w × h` rectangle of mask cells
(`mask[n + k + l*chunkSize] = 0`). -/
def clearRect (mask : ℕ → ℤ) (S n w h : ℕ) : ℕ → ℤ :=
  fun m => if ∃ l < h, ∃ k < w, m = n + k + l * S then 0 else mask m

/-- A merged rectangle as emitted by the scan: mask cell `(i, j)`, extents
`w` along `u` and `h` along `v`, and the signed mask value `c`
(the source's `currentBlock`). -/
structure Rect where
  i : ℕ
  j : ℕ
  w : ℕ
  h : ℕ
  c : ℤ
deriving DecidableEq, Repr

/-- The inner scan over one `v`-row `j` of the mask (`for (let i = 0; i < chunkSize; )`):
at a non-zero cell, grow `w` and `h`, record the rectangle, zero the
consumed cells and advance by `w`; otherwise advance by 1. Returns the
rectangles in emission order together with the mutated mask. -/
def mergeRow (S j : ℕ) : (ℕ → ℤ) → ℕ → ℕ → List Rect × (ℕ → ℤ)
  | mask, _, 0 => ([], mask)
  | mask, i, fuel + 1 =>
    if i < S then
      let n := i + j * S
      let c := mask n
      if c ≠ 0 then
        let w := growW mask S c n i 1 S
        let h := growH mask S c n j w 1 S
        let mask2 := clearRect mask S n w h
        let r := mergeRow S j mask2 (i + w) fuel
        (⟨i, j, w, h, c⟩ :: r.1, r.2)
      else mergeRow S j mask (i + 1) fuel
    else ([], mask)

/-- The outer scan over the rows `j = 0, …, chunkSize-1`, threading the
mutated mask from row to row. -/
def mergeRows (S : ℕ) : (ℕ → ℤ) → ℕ → ℕ → List Rect
  | _, _, 0 => []
  | mask, j, fuel + 1 =>
    if j < S then
      let r := mergeRow S j mask 0 (S + 1)
      r.1 ++ mergeRows S r.2 (j + 1) fuel
    else []

/-- The geometry `greedyMeshing` passes to `addQuad` for a merged rectangle:
the origin has `x[d] = p + 1` (the plane index after the `x[d]++`),
`x[u] = i`, `x[v] = j`; `du` is `w` along axis `u`, `dv` is `h` along axis
`v`; `isPositive = currentBlock > 0`. -/
structure Quad where
  x : V3
  du : V3
  dv : V3
  pos : Bool
deriving DecidableEq, Repr

def toQuad (d : ℕ) (p : ℤ) (r : Rect) : Quad :=
  let u := (d + 1) % 3
  let v := (d + 2) % 3
  { x := (V3.axis d (p + 1)).add ((V3.axis u (r.i : ℤ)).add (V3.axis v (r.j : ℤ)))
    du := V3.axis u (r.w : ℤ)
    dv := V3.axis v (r.h : ℤ)
    pos := 0 < r.c }

/-- All rectangles of the plane at position `p` of sweep axis `d`, as quads.
The mask array cell `n = i + j*chunkSize` holds `maskEntry … i j`. -/
def planeQuads (data : ℕ → ℕ) (S d : ℕ) (p : ℤ) : List Quad :=
  (mergeRows S (fun n => maskEntry data S d p (n % S) (n / S)) 0 (S + 1)).map (toQuad d p)

/-- One sweep axis: plane positions run from `-1` to `S - 1`
(`for (x[d] = -1; x[d] < chunkSize;)`). -/
def sweepQuads (data : ℕ → ℕ) (S d : ℕ) : List Quad :=
  (List.range (S + 1)).foldr (fun (t : ℕ) acc => planeQuads data S d ((t : ℤ) - 1) ++ acc) []

/-- Every quad `greedyMeshing` emits, in emission order (`d = 0, 1, 2`). -/
def greedyQuads (data : ℕ → ℕ) (S : ℕ) : List Quad :=
  sweepQuads data S 0 ++ sweepQuads data S 1 ++ sweepQuads data S 2

/-- The output buffers of `greedyMeshing`. -/
structure MeshData where
  positions : List ℤ
  normals : List ℤ
  uvs : List ℕ
  indices : List ℕ
deriving DecidableEq, Repr

def MeshData.empty : MeshData := ⟨[], [], [], []⟩

/-- `addQuad` of `meshing.ts`: pushes the 4 vertices, 4 copies of the
(unnormalized) cross product `du × dv` — negated when `isPositive` is false —
a fixed UV quad, and two triangles whose winding flips with `isPositive`.
The source's unused `indexOffset` parameter is omitted. -/
def addQuad (md : MeshData) (x du dv : V3) (isPositive : Bool) : MeshData :=
  let startIndex := md.positions.length / 3
  let normal := V3.cross du dv
  { positions := md.positions ++
      [x.x, x.y, x.z,
       x.x + du.x, x.y + du.y, x.z + du.z,
       x.x + dv.x, x.y + dv.y, x.z + dv.z,
       x.x + du.x + dv.x, x.y + du.y + dv.y, x.z + du.z + dv.z]
    normals :=
      if isPositive then
        md.normals ++ [normal.x, normal.y, normal.z, normal.x, normal.y, normal.z,
          normal.x, normal.y, normal.z, normal.x, normal.y, normal.z]
      else
        md.normals ++ [-normal.x, -normal.y, -normal.z, -normal.x, -normal.y, -normal.z,
          -normal.x, -normal.y, -normal.z, -normal.x, -normal.y, -normal.z]
    uvs := md.uvs ++ [0, 0, 1, 0, 0, 1, 1, 1]
    indices :=
      if isPositive then
        md.indices ++ [startIndex, startIndex + 1, startIndex + 2,
          startIndex + 1, startIndex + 3, startIndex + 2]
      else
        md.indices ++ [startIndex, startIndex + 2, startIndex + 1,
          startIndex + 1, startIndex + 2, startIndex + 3] }

/-- `greedyMeshing` of `meshing.ts`: the buffers after all `addQuad` calls,
in emission order. -/
def greedyMeshing (data : ℕ → ℕ) (S : ℕ) : MeshData :=
  (greedyQuads data S).foldl (fun md q => addQuad md q.x q.du q.dv q.pos) MeshData.empty

end Meshing

namespace ChunkWorker

/-- `addQuad` of `src/chunk.worker.ts`. Identical vertex and UV pushes, but
the normal is the hardcoded "simplified" `[0, 1, 0]` (or `[0, -1, 0]` when
not positive) regardless of `du`/`dv`, and the two index patterns are
swapped relative to `meshing.ts`. -/
def addQuad (md : Meshing.MeshData) (x du dv : V3) (isPositive : Bool) : Meshing.MeshData :=
  let startIndex := md.positions.length / 3
  { positions := md.positions ++
      [x.x, x.y, x.z,
       x.x + du.x, x.y + du.y, x.z + du.z,
       x.x + dv.x, x.y + dv.y, x.z + dv.z,
       x.x + du.x + dv.x, x.y + du.y + dv.y, x.z + du.z + dv.z]
    normals :=
      if isPositive then
        md.normals ++ [0, 1, 0, 0, 1, 0, 0, 1, 0, 0, 1, 0]
      else
        md.normals ++ [0, -1, 0, 0, -1, 0, 0, -1, 0, 0, -1, 0]
    uvs := md.uvs ++ [0, 0, 1, 0, 0, 1, 1, 1]
    indices :=
      if isPositive then
        md.indices ++ [startIndex, startIndex + 2, startIndex + 1,
          startIndex + 1, startIndex + 2, startIndex + 3]
      else
        md.indices ++ [startIndex, startIndex + 1, startIndex + 2,
          startIndex + 1, startIndex + 3, startIndex + 2] }

end ChunkWorker

/-- The test buffer of §8 of the specification: an `S × S × S` chunk whose
single filled layer `y = y0` holds the uniform block type `b` (flat index
`x + y*S + z*S*S`, so `y = idx / S % S`). -/
def slabFun (S y0 b : ℕ) : ℕ → ℕ :=
  fun idx => if idx / S % S = y0 then b else 0

namespace Meshing

/-- The quad normal as the specification words it: `sign(mask)` times the
unit cross product of the edge vectors (`V3.sgn` is the componentwise sign,
which is the unit vector for the axis-aligned `du x dv`). Used only to
compare with what `addQuad` pushes. -/
def specUnitNormal (q : Quad) : V3 :=
  if q.pos then V3.sgn (V3.cross q.du q.dv) else V3.neg (V3.sgn (V3.cross q.du q.dv))

end Meshing

/-- The first quad of the `S = 2` slab run, used as the `c2_normals_winding`
witness input. -/
def c2wQuad : Meshing.Quad := ⟨⟨0, 0, 0⟩, ⟨0, 1, 0⟩, ⟨0, 0, 2⟩, false⟩

namespace TerrainWorker

/-! Model of `src/public/workers/optimized-terrain-worker.js`: the
face-culling mesher over the padded `(S+2) x 32 x (S+2)` voxel array, and
the voxel (de)serialization helpers. The 3D array `voxel3D` is modelled as
a total function of the padded coordinates; the serialized `Uint8Array` as
a `List ℕ`. Vertex coordinates are integers; colors are the source's float
literals as rationals. -/

/-- `getBlockColor`: block-type to color lookup (no interpolation). -/
def getBlockColor (blockType : ℕ) : List ℚ :=
  if blockType = 1 then [3/10, 3/5, 1/5]
  else if blockType = 2 then [2/5, 1/5, 1/10]
  else if blockType = 3 then [1/2, 1/2, 1/2]
  else if blockType = 4 then [1/5, 3/5, 1]
  else if blockType = 5 then [11/20, 27/100, 7/100]
  else if blockType = 6 then [13/100, 11/20, 13/100]
  else if blockType = 7 then [24/25, 16/25, 19/50]
  else [4/5, 4/5, 4/5]

/-- Output buffers of the face-culling mesher (with vertex colors). -/
structure WMesh where
  positions : List ℤ
  normals : List ℤ
  uvs : List ℕ
  colors : List ℚ
  indices : List ℕ
deriving DecidableEq, Repr

def WMesh.empty : WMesh := ⟨[], [], [], [], []⟩

/-- `addTopFace`: 4 vertices at `y + 1`, colors and the fixed UV quad for
4 vertices, the `(vi, vi+1, vi+2, vi, vi+2, vi+3)` index pattern, and 4
copies of the `(0, 1, 0)` normal. -/
def addTopFace (md : WMesh) (x y z : ℤ) (color : List ℚ) (vertexIndex : ℕ) : WMesh :=
  { positions := md.positions ++
      [x, y + 1, z,  x + 1, y + 1, z,  x + 1, y + 1, z + 1,  x, y + 1, z + 1]
    normals := md.normals ++ [0, 1, 0, 0, 1, 0, 0, 1, 0, 0, 1, 0]
    uvs := md.uvs ++ [0, 0, 1, 0, 0, 1, 1, 1]
    colors := md.colors ++ (color ++ color ++ color ++ color)
    indices := md.indices ++ [vertexIndex, vertexIndex + 1, vertexIndex + 2,
      vertexIndex, vertexIndex + 2, vertexIndex + 3] }

/-- `addBottomFace`: 4 vertices at `y`, normal `(0, -1, 0)`. -/
def addBottomFace (md : WMesh) (x y z : ℤ) (color : List ℚ) (vertexIndex : ℕ) : WMesh :=
  { positions := md.positions ++
      [x, y, z,  x, y, z + 1,  x + 1, y, z + 1,  x + 1, y, z]
    normals := md.normals ++ [0, -1, 0, 0, -1, 0, 0, -1, 0, 0, -1, 0]
    uvs := md.uvs ++ [0, 0, 1, 0, 0, 1, 1, 1]
    colors := md.colors ++ (color ++ color ++ color ++ color)
    indices := md.indices ++ [vertexIndex, vertexIndex + 1, vertexIndex + 2,
      vertexIndex, vertexIndex + 2, vertexIndex + 3] }

/-- `addFrontFace` (`z-` side), normal `(0, 0, -1)`. -/
def addFrontFace (md : WMesh) (x y z : ℤ) (color : List ℚ) (vertexIndex : ℕ) : WMesh :=
  { positions := md.positions ++
      [x, y, z,  x + 1, y, z,  x + 1, y + 1, z,  x, y + 1, z]
    normals := md.normals ++ [0, 0, -1, 0, 0, -1, 0, 0, -1, 0, 0, -1]
    uvs := md.uvs ++ [0, 0, 1, 0, 0, 1, 1, 1]
    colors := md.colors ++ (color ++ color ++ color ++ color)
    indices := md.indices ++ [vertexIndex, vertexIndex + 1, vertexIndex + 2,
      vertexIndex, vertexIndex + 2, vertexIndex + 3] }

/-- `addBackFace` (`z+` side), normal `(0, 0, 1)`. -/
def addBackFace (md : WMesh) (x y z : ℤ) (color : List ℚ) (vertexIndex : ℕ) : WMesh :=
  { positions := md.positions ++
      [x + 1, y, z + 1,  x, y, z + 1,  x, y + 1, z + 1,  x + 1, y + 1, z + 1]
    normals := md.normals ++ [0, 0, 1, 0, 0, 1, 0, 0, 1, 0, 0, 1]
    uvs := md.uvs ++ [0, 0, 1, 0, 0, 1, 1, 1]
    colors := md.colors ++ (color ++ color ++ color ++ color)
    indices := md.indices ++ [vertexIndex, vertexIndex + 1, vertexIndex + 2,
      vertexIndex, vertexIndex + 2, vertexIndex + 3] }

/-- `addRightFace` (`x+` side), normal `(1, 0, 0)`. -/
def addRightFace (md : WMesh) (x y z : ℤ) (color : List ℚ) (vertexIndex : ℕ) : WMesh :=
  { positions := md.positions ++
      [x + 1, y, z,  x + 1, y, z + 1,  x + 1, y + 1, z + 1,  x + 1, y + 1, z]
    normals := md.normals ++ [1, 0, 0, 1, 0, 0, 1, 0, 0, 1, 0, 0]
    uvs := md.uvs ++ [0, 0, 1, 0, 0, 1, 1, 1]
    colors := md.colors ++ (color ++ color ++ color ++ color)
    indices := md.indices ++ [vertexIndex, vertexIndex + 1, vertexIndex + 2,
      vertexIndex, vertexIndex + 2, vertexIndex + 3] }

/-- `addLeftFace` (`x-` side), normal `(-1, 0, 0)`. -/
def addLeftFace (md : WMesh) (x y z : ℤ) (color : List ℚ) (vertexIndex : ℕ) : WMesh :=
  { positions := md.positions ++
      [x, y, z + 1,  x, y, z,  x, y + 1, z,  x, y + 1, z + 1]
    normals := md.normals ++ [-1, 0, 0, -1, 0, 0, -1, 0, 0, -1, 0, 0]
    uvs := md.uvs ++ [0, 0, 1, 0, 0, 1, 1, 1]
    colors := md.colors ++ (color ++ color ++ color ++ color)
    indices := md.indices ++ [vertexIndex, vertexIndex + 1, vertexIndex + 2,
      vertexIndex, vertexIndex + 2, vertexIndex + 3] }

/-- The per-voxel body of the mesher's triple loop: test the 6 neighbors
in source order (top, bottom, front `z-1`, back `z+1`, right `x+1`, left
`x-1`) and emit one face per AIR neighbor, advancing `vertexIndex` by 4
per face. In the padded array `y - 1 < 0` is `y = 0`; the disjunction
matches the source's short-circuit read. -/
def processCell (v3 : ℕ → ℕ → ℕ → ℕ) (x y z : ℕ) (acc : WMesh × ℕ) : WMesh × ℕ :=
  let blockType := v3 x y z
  if blockType = 0 then acc
  else
    let blockColor := getBlockColor blockType
    let worldX : ℤ := (x : ℤ) - 1
    let worldZ : ℤ := (z : ℤ) - 1
    let a1 := if 32 ≤ y + 1 ∨ v3 x (y + 1) z = 0 then
        (addTopFace acc.1 worldX (y : ℤ) worldZ blockColor acc.2, acc.2 + 4) else acc
    let a2 := if y = 0 ∨ v3 x (y - 1) z = 0 then
        (addBottomFace a1.1 worldX (y : ℤ) worldZ blockColor a1.2, a1.2 + 4) else a1
    let a3 := if v3 x y (z - 1) = 0 then
        (addFrontFace a2.1 worldX (y : ℤ) worldZ blockColor a2.2, a2.2 + 4) else a2
    let a4 := if v3 x y (z + 1) = 0 then
        (addBackFace a3.1 worldX (y : ℤ) worldZ blockColor a3.2, a3.2 + 4) else a3
    let a5 := if v3 (x + 1) y z = 0 then
        (addRightFace a4.1 worldX (y : ℤ) worldZ blockColor a4.2, a4.2 + 4) else a4
    if v3 (x - 1) y z = 0 then
        (addLeftFace a5.1 worldX (y : ℤ) worldZ blockColor a5.2, a5.2 + 4) else a5

/-- The face-culling mesher core: iterate `x = 1..chunkSize`,
`y = 0..31`, `z = 1..chunkSize` over the padded voxel array. -/
def meshFromVoxel3D (v3 : ℕ → ℕ → ℕ → ℕ) (chunkSize : ℕ) : WMesh :=
  ((List.range chunkSize).foldl (fun acc xi =>
    (List.range 32).foldl (fun acc y =>
      (List.range chunkSize).foldl (fun acc zi =>
        processCell v3 (xi + 1) y (zi + 1) acc) acc) acc) (WMesh.empty, 0)).1

/-- `serializeVoxelData`: flatten the padded 3D array in `x, y, z`
iteration order (`data[index++] = voxel3D[x][y][z]`). -/
def serializeVoxelData (voxel3D : ℕ → ℕ → ℕ → ℕ) (chunkSize : ℕ) : List ℕ :=
  (List.range (chunkSize + 2)).flatMap (fun x =>
    (List.range 32).flatMap (fun y =>
      (List.range (chunkSize + 2)).map (fun z => voxel3D x y z)))

/-- `deserializeVoxelData`: read back in the same iteration order; the
running `index++` at `(x, y, z)` is `x*(32*(S+2)) + y*(S+2) + z`. -/
def deserializeVoxelData (data : List ℕ) (chunkSize : ℕ) : ℕ → ℕ → ℕ → ℕ :=
  fun x y z => data.getD (x * (32 * (chunkSize + 2)) + y * (chunkSize + 2) + z) 0

/-- `generateMeshFromVoxelData`: deserialize, then mesh with face culling. -/
def generateMeshFromVoxelData (data : List ℕ) (chunkSize : ℕ) : WMesh :=
  meshFromVoxel3D (deserializeVoxelData data chunkSize) chunkSize

/-- The number of exposed faces of one voxel by direct neighbor
inspection, as the claim words it: a face is exposed iff the adjacent cell
is AIR, with `y` bounded by `[0, 32)`. Used only to compare with the
mesher's output. -/
def cellExposedCount (v3 : ℕ → ℕ → ℕ → ℕ) (x y z : ℕ) : ℕ :=
  if v3 x y z = 0 then 0
  else
    (if 32 ≤ y + 1 ∨ v3 x (y + 1) z = 0 then 1 else 0) +
    ((if y = 0 ∨ v3 x (y - 1) z = 0 then 1 else 0) +
    ((if v3 x y (z - 1) = 0 then 1 else 0) +
    ((if v3 x y (z + 1) = 0 then 1 else 0) +
    ((if v3 (x + 1) y z = 0 then 1 else 0) +
    (if v3 (x - 1) y z = 0 then 1 else 0)))))

/-- Total exposed faces over the interior cells, by direct inspection. -/
def exposedFaceCount (v3 : ℕ → ℕ → ℕ → ℕ) (chunkSize : ℕ) : ℕ :=
  ((List.range chunkSize).map (fun xi =>
    ((List.range 32).map (fun y =>
      ((List.range chunkSize).map (fun zi =>
        cellExposedCount v3 (xi + 1) y (zi + 1))).sum)).sum)).sum

/-- The single solid voxel surrounded by AIR (chunk size 1, cell
`(1, 5, 1)` of the padded array). -/
def singleVoxel : ℕ → ℕ → ℕ → ℕ :=
  fun x y z => if x = 1 ∧ y = 5 ∧ z = 1 then 1 else 0

end TerrainWorker

namespace OptMgr

/-- The flat voxel index `placeBlock`/`removeBlock` of
`OptimizedChunkManager` compute for a local edit coordinate:
`((localX + 1) * WORLD_HEIGHT * paddedSize) + (localY * paddedSize) + (localZ + 1)`
with `WORLD_HEIGHT = 32` and `paddedSize = S + 2`. -/
def voxelIndexOf (S lx ly lz : ℕ) : ℕ :=
  ((lx + 1) * 32 * (S + 2)) + ly * (S + 2) + (lz + 1)

end OptMgr

namespace Meshing

/-- The mesh-buffer invariants for the greedy mesher's buffers. -/
def Ginv (md : MeshData) : Prop :=
  md.positions.length = md.normals.length ∧
  md.positions.length % 3 = 0 ∧
  (∀ ix ∈ md.indices, ix < md.positions.length / 3) ∧
  md.indices.length % 3 = 0

end Meshing

namespace TerrainWorker

/-- The mesh-buffer invariants for the face-culling mesher's buffers,
together with the running `vertexIndex`. -/
def Winv (acc : WMesh × ℕ) : Prop :=
  acc.2 = acc.1.positions.length / 3 ∧
  acc.1.positions.length = acc.1.normals.length ∧
  acc.1.positions.length = acc.1.colors.length ∧
  acc.1.positions.length % 3 = 0 ∧
  (∀ ix ∈ acc.1.indices, ix < acc.1.positions.length / 3) ∧
  acc.1.indices.length % 3 = 0

end TerrainWorker

namespace EnhMgr

/-! Model of the `chunkGenerated` response path of
`src/src/game/world/ChunkManager.ts`. The chunk map is keyed by the
`"x,z"` string, modelled as the integer pair; the installed Three.js
geometry is abstracted to the numeric identity of the `meshData` payload.
The handler carries no generation counter — `ChunkData` has none — and
installs every response unconditionally. -/

/-- The `ChunkData` fields the handler touches (`voxels` is always the
empty array in this manager and is omitted). -/
structure ChunkData where
  x : ℤ
  z : ℤ
  mesh : Option ℕ
  isGenerated : Bool
  isVisible : Bool
deriving DecidableEq, Repr

/-- A `chunkGenerated` worker response: coordinates and the mesh payload. -/
structure GenResponse where
  chunkX : ℤ
  chunkZ : ℤ
  meshData : ℕ
deriving DecidableEq, Repr

/-- The store state: resident chunk records and the in-flight key set. -/
structure State where
  chunks : ℤ × ℤ → Option ChunkData
  loadingChunks : ℤ × ℤ → Bool

/-- `handleEnhancedChunkGenerated`: drop the key from `loadingChunks`,
get or create the record, install the mesh payload and mark it generated
and visible. No counter is consulted; any response is installed. -/
def handleEnhancedChunkGenerated (st : State) (r : GenResponse) : State :=
  let key := (r.chunkX, r.chunkZ)
  let chunk := match st.chunks key with
    | some c => c
    | none => ⟨r.chunkX, r.chunkZ, none, false, true⟩
  let chunk' : ChunkData :=
    { chunk with mesh := some r.meshData, isGenerated := true, isVisible := true }
  { chunks := fun k => if k = key then some chunk' else st.chunks k
    loadingChunks := fun k => if k = key then false else st.loadingChunks k }

end EnhMgr

namespace OptMgr

/-! Model of `OptimizedChunkManager` (`placeBlock`, `removeBlock`,
`regenerateChunkMesh`, `updateNeighborChunksIfNeeded`). The chunk map is
keyed by the integer pair behind the `"x,z"` string; the resident voxel
buffer is the serialized padded `Uint8Array` as a `List ℕ`. `CHUNK_SIZE`
is 16 and `WORLD_HEIGHT` 32 as in the source. Edit positions are block
coordinates (integers); `Math.floor(p / CHUNK_SIZE)` is `Int.fdiv`.
Worker dispatch is abstracted to the list of posted `regenerate`
messages, in posting order. -/

/-- The `ChunkData` fields the edit path touches (the Three.js mesh is
not modelled). -/
structure ChunkData where
  x : ℤ
  z : ℤ
  voxels : List ℕ
  isGenerated : Bool
  needsRemesh : Bool
deriving DecidableEq, Repr

/-- A posted worker message. -/
inductive Msg where
  | regenerate (chunkX chunkZ : ℤ) (voxelData : List ℕ) (chunkSize : ℕ)
deriving DecidableEq, Repr

structure State where
  chunks : ℤ × ℤ → Option ChunkData

def CHUNK_SIZE : ℕ := 16

def WORLD_HEIGHT : ℕ := 32

/-- `regenerateChunkMesh`: skip when a re-mesh is already pending
(`chunk.voxels` is an array object and therefore never falsy in the
source's `!chunk.voxels` test); otherwise mark `needsRemesh`, post
`regenerate` with the buffer, and replace the transferred buffer with a
fresh zero array of the same length. -/
def regenerateChunkMesh (st : State) (k : ℤ × ℤ) : State × List Msg :=
  match st.chunks k with
  | none => (st, [])
  | some ch =>
    if ch.needsRemesh then (st, [])
    else
      let msg := Msg.regenerate ch.x ch.z ch.voxels CHUNK_SIZE
      let ch' : ChunkData :=
        { ch with needsRemesh := true, voxels := List.replicate ch.voxels.length 0 }
      ({ chunks := fun k' => if k' = k then some ch' else st.chunks k' }, [msg])

/-- One neighbor-key candidate of `updateNeighborChunksIfNeeded`: present
only when the chunk exists and is generated. -/
def neighborKey (st : State) (k : ℤ × ℤ) (cond : Prop) [Decidable cond] : List (ℤ × ℤ) :=
  if cond then
    match st.chunks k with
    | some c => if c.isGenerated then [k] else []
    | none => []
  else []

/-- `updateNeighborChunksIfNeeded`: collect the boundary-adjacent
generated chunks in source order (`x-1`, `x+1`, `z-1`, `z+1`), then
regenerate each. The source collects the chunk object references before
regenerating; keys identify the same records. -/
def updateNeighborChunksIfNeeded (st : State) (chunkX chunkZ localX localZ : ℤ) :
    State × List Msg :=
  let keys :=
    neighborKey st (chunkX - 1, chunkZ) (localX = 0) ++
    neighborKey st (chunkX + 1, chunkZ) (localX = (CHUNK_SIZE : ℤ) - 1) ++
    neighborKey st (chunkX, chunkZ - 1) (localZ = 0) ++
    neighborKey st (chunkX, chunkZ + 1) (localZ = (CHUNK_SIZE : ℤ) - 1)
  keys.foldl (fun acc k =>
    let r := regenerateChunkMesh acc.1 k
    (r.1, acc.2 ++ r.2)) (st, [])

/-- `placeBlock`: resolve the chunk, reject when absent or not generated
(`!chunk.voxels` is never true for an array), validate the local
coordinates, write the voxel, re-mesh the chunk, then update boundary
neighbors. Returns the new state, the posted messages and the result. -/
def placeBlock (st : State) (px py pz : ℤ) (blockType : ℕ) : State × List Msg × Bool :=
  let chunkX := Int.fdiv px (CHUNK_SIZE : ℤ)
  let chunkZ := Int.fdiv pz (CHUNK_SIZE : ℤ)
  match st.chunks (chunkX, chunkZ) with
  | none => (st, [], false)
  | some ch =>
    if ch.isGenerated = false then (st, [], false)
    else
      let localX := px - chunkX * (CHUNK_SIZE : ℤ)
      let localY := py
      let localZ := pz - chunkZ * (CHUNK_SIZE : ℤ)
      if localX < 0 ∨ (CHUNK_SIZE : ℤ) ≤ localX ∨ localY < 0 ∨
          (WORLD_HEIGHT : ℤ) ≤ localY ∨ localZ < 0 ∨ (CHUNK_SIZE : ℤ) ≤ localZ then
        (st, [], false)
      else
        let voxelIndex := voxelIndexOf CHUNK_SIZE localX.toNat localY.toNat localZ.toNat
        let ch' : ChunkData := { ch with voxels := ch.voxels.set voxelIndex blockType }
        let st1 : State :=
          { chunks := fun k => if k = (chunkX, chunkZ) then some ch' else st.chunks k }
        let r1 := regenerateChunkMesh st1 (chunkX, chunkZ)
        let r2 := updateNeighborChunksIfNeeded r1.1 chunkX chunkZ localX localZ
        (r2.1, r1.2 ++ r2.2, true)

/-- `removeBlock`: like `placeBlock`, but reject with no message and no
mutation when the target cell is already AIR, else clear the voxel and
re-mesh. -/
def removeBlock (st : State) (px py pz : ℤ) : State × List Msg × Bool :=
  let chunkX := Int.fdiv px (CHUNK_SIZE : ℤ)
  let chunkZ := Int.fdiv pz (CHUNK_SIZE : ℤ)
  match st.chunks (chunkX, chunkZ) with
  | none => (st, [], false)
  | some ch =>
    if ch.isGenerated = false then (st, [], false)
    else
      let localX := px - chunkX * (CHUNK_SIZE : ℤ)
      let localY := py
      let localZ := pz - chunkZ * (CHUNK_SIZE : ℤ)
      if localX < 0 ∨ (CHUNK_SIZE : ℤ) ≤ localX ∨ localY < 0 ∨
          (WORLD_HEIGHT : ℤ) ≤ localY ∨ localZ < 0 ∨ (CHUNK_SIZE : ℤ) ≤ localZ then
        (st, [], false)
      else
        let voxelIndex := voxelIndexOf CHUNK_SIZE localX.toNat localY.toNat localZ.toNat
        let oldBlockType := ch.voxels.getD voxelIndex 0
        if oldBlockType = 0 then (st, [], false)
        else
          let ch' : ChunkData := { ch with voxels := ch.voxels.set voxelIndex 0 }
          let st1 : State :=
            { chunks := fun k => if k = (chunkX, chunkZ) then some ch' else st.chunks k }
          let r1 := regenerateChunkMesh st1 (chunkX, chunkZ)
          let r2 := updateNeighborChunksIfNeeded r1.1 chunkX chunkZ localX localZ
          (r2.1, r1.2 ++ r2.2, true)

end OptMgr

/-- Concrete edited chunk for the `c6_neighbor_regen` witness. -/
def c6wCh : OptMgr.ChunkData := ⟨0, 0, [], true, false⟩

/-- Concrete x-1 neighbor chunk for the `c6_neighbor_regen` witness. -/
def c6wChL : OptMgr.ChunkData := ⟨-1, 0, [], true, false⟩

/-- Concrete two-chunk store for the `c6_neighbor_regen` witness. -/
def c6wState : OptMgr.State :=
  ⟨fun k => if k = (0, 0) then some c6wCh else if k = (-1, 0) then some c6wChL else none⟩

/-- Concrete chunk (all-AIR buffer) for the `c7_remove_air_noop` witness. -/
def c7wCh : OptMgr.ChunkData := ⟨0, 0, [], true, false⟩

/-- Concrete one-chunk store for the `c7_remove_air_noop` witness. -/
def c7wState : OptMgr.State :=
  ⟨fun k => if k = (0, 0) then some c7wCh else none⟩

/-- **C1.** For every sweep axis `d`, plane position `-1 ≤ p ≤ S-2` and mask
cell `(i, j)` with `i, j < S`, the 2D mask entry the greedy mesher computes
equals the specification's case split: `blockA` when `blockA` is non-zero
and differs from `blockB`, `-blockB` when `blockB` is non-zero and differs
from `blockA`, and `0` otherwise, with `blockA` AIR at `p = -1` and
`blockB` AIR at `p = S-1`. -/
theorem c1_mask_formula (data : ℕ → ℕ) (S : ℕ) (d : ℕ) (p : ℤ) (i j : ℕ)
    (hd : d < 3) (hp₁ : -1 ≤ p) (hp₂ : p ≤ (S : ℤ) - 2) (hi : i < S) (hj : j < S) :
    Meshing.maskEntry data S d p i j = Meshing.specMaskEntry data S d p i j := by
  unfold Meshing.maskEntry Meshing.specMaskEntry
  have hA : (0 ≤ p) ↔ ¬(p = -1) := by omega
  have hB : (p < (S : ℤ) - 1) ↔ ¬(p = (S : ℤ) - 1) := by omega
  simp only [hA, hB, ite_not]
  split_ifs <;> omega

namespace Meshing

/-! ### Behaviour of the merge loops -/

theorem growW_ge (mask : ℕ → ℤ) (S : ℕ) (c : ℤ) (n i : ℕ) :
    ∀ fuel w, w ≤ growW mask S c n i w fuel := by
  intro fuel
  induction fuel with
  | zero => intro w; simp [growW]
  | succ fuel ih =>
    intro w
    rw [growW]
    split
    · exact le_trans (Nat.le_succ w) (ih (w + 1))
    · exact le_refl w

theorem growW_stop (mask : ℕ → ℤ) (S : ℕ) (c : ℤ) (n i : ℕ) (fuel w : ℕ)
    (h : ¬(i + w < S ∧ mask (n + w) = c)) :
    growW mask S c n i w fuel = w := by
  cases fuel with
  | zero => rfl
  | succ fuel => rw [growW]; simp [h]

theorem growW_uniform (mask : ℕ → ℤ) (S : ℕ) (c : ℤ) (n i : ℕ)
    (hmask : ∀ δ, i + δ < S → mask (n + δ) = c) :
    ∀ fuel w, S ≤ i + w + fuel →
      growW mask S c n i w fuel = if i + w < S then S - i else w := by
  intro fuel
  induction fuel with
  | zero =>
    intro w hf
    have : ¬ i + w < S := by omega
    simp [growW, this]
  | succ fuel ih =>
    intro w hf
    rw [growW]
    by_cases hlt : i + w < S
    · have hc : mask (n + w) = c := hmask w hlt
      simp only [hlt, hc, and_self, if_true]
      rw [ih (w + 1) (by omega)]
      split <;> omega
    · simp [hlt]

theorem growH_stop (mask : ℕ → ℤ) (S : ℕ) (c : ℤ) (n j w : ℕ) (fuel h : ℕ)
    (hst : ¬(j + h < S ∧ ∀ k < w, mask (n + k + h * S) = c)) :
    growH mask S c n j w h fuel = h := by
  cases fuel with
  | zero => rfl
  | succ fuel => rw [growH]; simp only [hst, if_false]

theorem growH_uniform (mask : ℕ → ℤ) (S : ℕ) (c : ℤ) (n j w : ℕ)
    (hmask : ∀ δ k, j + δ < S → k < w → mask (n + k + δ * S) = c) :
    ∀ fuel h, S ≤ j + h + fuel →
      growH mask S c n j w h fuel = if j + h < S then S - j else h := by
  intro fuel
  induction fuel with
  | zero =>
    intro h hf
    have : ¬ j + h < S := by omega
    simp [growH, this]
  | succ fuel ih =>
    intro h hf
    rw [growH]
    by_cases hlt : j + h < S
    · have hc : ∀ k < w, mask (n + k + h * S) = c := fun k hk => hmask h k hlt hk
      simp only [hlt, hc, and_self, if_true, true_and]
      rw [if_pos hc, ih (h + 1) (by omega)]
      split <;> omega
    · simp [hlt]

/-- Decomposition of a flat mask index into its column and row is unique. -/
theorem flatIndex_inj {S a a' b b' : ℕ} (ha : a < S) (ha' : a' < S)
    (heq : a + b * S = a' + b' * S) : a = a' ∧ b = b' := by
  have hS : 0 < S := Nat.lt_of_le_of_lt (Nat.zero_le a) ha
  have hmod : (a + b * S) % S = (a' + b' * S) % S := by rw [heq]
  rw [Nat.add_mul_mod_self_right, Nat.add_mul_mod_self_right,
    Nat.mod_eq_of_lt ha, Nat.mod_eq_of_lt ha'] at hmod
  subst hmod
  have : b * S = b' * S := by omega
  exact ⟨rfl, Nat.eq_of_mul_eq_mul_right hS this⟩

theorem clearRect_spec (mask : ℕ → ℤ) (S i j w h i' j' : ℕ)
    (hw : i + w ≤ S) (hi' : i' < S) :
    clearRect mask S (i + j * S) w h (i' + j' * S) =
      if i ≤ i' ∧ i' < i + w ∧ j ≤ j' ∧ j' < j + h then 0 else mask (i' + j' * S) := by
  unfold clearRect
  by_cases hin : i ≤ i' ∧ i' < i + w ∧ j ≤ j' ∧ j' < j + h
  · rw [if_pos, if_pos hin]
    exact ⟨j' - j, by omega, i' - i, by omega, by
      have : i + j * S + (i' - i) + (j' - j) * S = (i' + (j' - j) * S) + j * S := by omega
      rw [this]
      have : i' + j' * S = i' + (j' - j) * S + j * S := by
        have : j' * S = (j' - j) * S + j * S := by
          rw [← Nat.add_mul]
          congr 1
          omega
        omega
      omega⟩
  · rw [if_neg, if_neg hin]
    rintro ⟨l, hl, k, hk, heq⟩
    have hik : i + k < S := by omega
    have : (i + k) + (j + l) * S = i' + j' * S := by
      have : (j + l) * S = j * S + l * S := by rw [Nat.add_mul]
      omega
    obtain ⟨h1, h2⟩ := flatIndex_inj hik hi' this
    exact hin ⟨by omega, by omega, by omega, by omega⟩

theorem mergeRow_zero (S j : ℕ) :
    ∀ fuel (mask : ℕ → ℤ) i, (∀ i', i ≤ i' → i' < S → mask (i' + j * S) = 0) →
      S ≤ i + fuel → mergeRow S j mask i fuel = ([], mask) := by
  intro fuel
  induction fuel with
  | zero => intro mask i _ _; rfl
  | succ fuel ih =>
    intro mask i hmask hf
    rw [mergeRow]
    by_cases hi : i < S
    · have hc : mask (i + j * S) = 0 := hmask i le_rfl hi
      simp only [hi, if_true, hc, ne_eq, not_true_eq_false, if_false]
      exact ih mask (i + 1) (fun i' h1 h2 => hmask i' (by omega) h2) (by omega)
    · simp [hi]

theorem mergeRows_zero (S : ℕ) :
    ∀ fuel (mask : ℕ → ℤ) j, (∀ i' j', i' < S → j ≤ j' → j' < S → mask (i' + j' * S) = 0) →
      mergeRows S mask j fuel = [] := by
  intro fuel
  induction fuel with
  | zero => intro mask j _; rfl
  | succ fuel ih =>
    intro mask j hmask
    rw [mergeRows]
    by_cases hj : j < S
    · rw [if_pos hj,
        mergeRow_zero S j (S + 1) mask 0 (fun i' _ h2 => hmask i' j h2 le_rfl hj) (by omega)]
      exact ih mask (j + 1) (fun i' j' h1 h2 h3 => hmask i' j' h1 (by omega) h3)
    · simp [hj]

/-- Index congruence helper for mask reads. -/
theorem maskIdx (mask : ℕ → ℤ) {a b : ℕ} (h : a = b) : mask a = mask b :=
  congrArg mask h

/-- A row scan that meets exactly one run: zeros before column `i0`, an
active cell at `i0` whose growth loops return `w` and `h`, and (cleared)
zeros after the run. -/
theorem mergeRow_single (S j : ℕ) (mask : ℕ → ℤ) (i0 w h : ℕ) (c : ℤ)
    (hi0 : i0 < S) (hc : mask (i0 + j * S) = c) (hc0 : c ≠ 0)
    (hw : growW mask S c (i0 + j * S) i0 1 S = w)
    (hh : growH mask S c (i0 + j * S) j w 1 S = h)
    (hbefore : ∀ i', i' < i0 → mask (i' + j * S) = 0)
    (hafter : ∀ i', i0 + w ≤ i' → i' < S →
      clearRect mask S (i0 + j * S) w h (i' + j * S) = 0) :
    ∀ fuel i, i ≤ i0 → S ≤ i + fuel →
      mergeRow S j mask i fuel = ([⟨i0, j, w, h, c⟩], clearRect mask S (i0 + j * S) w h) := by
  have hw1 : 1 ≤ w := hw ▸ growW_ge mask S c (i0 + j * S) i0 S 1
  intro fuel
  induction fuel with
  | zero => intro i h1 h2; omega
  | succ fuel ih =>
    intro i h1 h2
    rw [mergeRow]
    rw [if_pos (by omega : i < S)]
    by_cases hii : i = i0
    · subst hii
      simp only [hc, hw, hh]
      rw [if_pos hc0]
      rw [mergeRow_zero S j fuel _ (i + w)
        (fun i' hge hlt => hafter i' hge hlt) (by omega)]
    · have hz : mask (i + j * S) = 0 := hbefore i (by omega)
      simp only [hz]
      rw [if_neg (by simp : ¬(0 : ℤ) ≠ 0)]
      exact ih (i + 1) (by omega) (by omega)

/-- Merging a mask that is the same non-zero value everywhere yields the
single full rectangle. -/
theorem mergeRows_uniform (S : ℕ) (c : ℤ) (mask : ℕ → ℤ) (hS : 0 < S) (hc0 : c ≠ 0)
    (hmask : ∀ i' j', i' < S → j' < S → mask (i' + j' * S) = c) :
    mergeRows S mask 0 (S + 1) = [⟨0, 0, S, S, c⟩] := by
  have hrow := mergeRow_single S 0 mask 0 S S c hS
    ((maskIdx mask (by ring)).trans (hmask 0 0 hS hS)) hc0
    (by
      rw [growW_uniform mask S c (0 + 0 * S) 0
        (fun δ hδ => (maskIdx mask (by ring)).trans (hmask δ 0 (by omega) hS)) S 1 (by omega)]
      split <;> omega)
    (by
      rw [growH_uniform mask S c (0 + 0 * S) 0 S
        (fun δ k hδ hk => (maskIdx mask (by ring)).trans (hmask k δ hk (by omega))) S 1
        (by omega)]
      split <;> omega)
    (fun i' hi' => absurd hi' (by omega))
    (fun i' hge hlt => absurd hlt (by omega))
    (S + 1) 0 (by omega) (by omega)
  rw [mergeRows, if_pos hS]
  simp only [hrow]
  rw [mergeRows_zero S S _ 1 (fun i' j' h1 h2 h3 => by
    rw [clearRect_spec mask S 0 0 S S i' j' (by omega) h1,
      if_pos ⟨Nat.zero_le _, by omega, Nat.zero_le _, by omega⟩])]
  simp

/-- Merging a mask that is a non-zero value `c` exactly on column `i0`
yields the single `1 × S` rectangle. -/
theorem mergeRows_singleCol (S i0 : ℕ) (c : ℤ) (mask : ℕ → ℤ) (hi0 : i0 < S) (hc0 : c ≠ 0)
    (hmask : ∀ i' j', i' < S → j' < S → mask (i' + j' * S) = if i' = i0 then c else 0) :
    mergeRows S mask 0 (S + 1) = [⟨i0, 0, 1, S, c⟩] := by
  have hS : 0 < S := by omega
  have hrow := mergeRow_single S 0 mask i0 1 S c hi0
    ((hmask i0 0 hi0 hS).trans (if_pos rfl)) hc0
    (growW_stop mask S c (i0 + 0 * S) i0 S 1 (by
      rintro ⟨hlt, heq⟩
      rw [maskIdx mask (by ring : i0 + 0 * S + 1 = (i0 + 1) + 0 * S),
        hmask (i0 + 1) 0 (by omega) hS, if_neg (by omega)] at heq
      exact hc0 heq.symm))
    (by
      rw [growH_uniform mask S c (i0 + 0 * S) 0 1
        (fun δ k hδ hk => by
          have hk0 : k = 0 := by omega
          subst hk0
          rw [maskIdx mask (by ring : i0 + 0 * S + 0 + δ * S = i0 + δ * S),
            hmask i0 δ hi0 (by omega), if_pos rfl])
        S 1 (by omega)]
      split <;> omega)
    (fun i' hlt => by
      rw [hmask i' 0 (by omega) hS, if_neg (by omega)])
    (fun i' hge hlt => by
      rw [clearRect_spec mask S i0 0 1 S i' 0 (by omega) hlt, if_neg (by omega),
        hmask i' 0 hlt hS, if_neg (by omega)])
    (S + 1) 0 (by omega) (by omega)
  rw [mergeRows, if_pos hS]
  simp only [hrow]
  rw [mergeRows_zero S S _ 1 (fun i' j' h1 h2 h3 => by
    rw [clearRect_spec mask S i0 0 1 S i' j' (by omega) h1]
    by_cases hcol : i' = i0
    · subst hcol
      rw [if_pos ⟨le_refl _, by omega, Nat.zero_le _, by omega⟩]
    · rw [if_neg (by omega), hmask i' j' h1 h3, if_neg hcol])]
  simp

/-- Merging a mask that is a non-zero value `c` exactly on row `j0` yields
the single `S × 1` rectangle. -/
theorem mergeRows_singleRow (S j0 : ℕ) (c : ℤ) (mask : ℕ → ℤ) (hj0 : j0 < S) (hc0 : c ≠ 0)
    (hmask : ∀ i' j', i' < S → j' < S → mask (i' + j' * S) = if j' = j0 then c else 0) :
    ∀ fuel j, j ≤ j0 → S ≤ j + fuel → mergeRows S mask j fuel = [⟨0, j0, S, 1, c⟩] := by
  have hS : 0 < S := by omega
  intro fuel
  induction fuel with
  | zero => intro j h1 h2; omega
  | succ fuel ih =>
    intro j h1 h2
    rw [mergeRows, if_pos (by omega : j < S)]
    by_cases hjj : j = j0
    · subst hjj
      have hrow := mergeRow_single S j mask 0 S 1 c hS
        ((maskIdx mask (by ring)).trans ((hmask 0 j hS hj0).trans (if_pos rfl))) hc0
        (by
          rw [growW_uniform mask S c (0 + j * S) 0
            (fun δ hδ => (maskIdx mask (by ring)).trans
              ((hmask δ j (by omega) hj0).trans (if_pos rfl))) S 1 (by omega)]
          split <;> omega)
        (growH_stop mask S c (0 + j * S) j S S 1 (by
          rintro ⟨hlt, hall⟩
          have hx := hall 0 hS
          rw [maskIdx mask (by ring : 0 + j * S + 0 + 1 * S = 0 + (j + 1) * S),
            hmask 0 (j + 1) hS hlt, if_neg (by omega)] at hx
          exact hc0 hx.symm))
        (fun i' hlt => absurd hlt (by omega))
        (fun i' hge hlt => absurd hlt (by omega))
        (S + 1) 0 (by omega) (by omega)
      simp only [hrow]
      rw [mergeRows_zero S fuel _ (j + 1) (fun i' j' hh1 hh2 hh3 => by
        rw [clearRect_spec mask S 0 j S 1 i' j' (by omega) hh1, if_neg (by omega),
          hmask i' j' hh1 hh3, if_neg (by omega)])]
      simp
    · have hrz := mergeRow_zero S j (S + 1) mask 0
        (fun i' _ hlt => by rw [hmask i' j hlt (by omega), if_neg (by omega)]) (by omega)
      simp only [hrz]
      rw [List.nil_append]
      exact ih (j + 1) (by omega) (by omega)

/-! ### The greedy mesher on the uniform one-voxel-tall slab -/

theorem getVoxel_slab (S y0 b : ℕ) (x y z : ℤ)
    (hx : 0 ≤ x) (hx' : x < S) (hy : 0 ≤ y) (hy' : y < S) (hz : 0 ≤ z) (hz' : z < S) :
    getVoxel (slabFun S y0 b) x y z S = if y = (y0 : ℤ) then (b : ℤ) else 0 := by
  have hS : 0 < S := by omega
  lift x to ℕ using hx
  lift y to ℕ using hy
  lift z to ℕ using hz
  unfold getVoxel slabFun
  rw [if_neg (by omega)]
  have hidx : ((x : ℤ) + (y : ℤ) * S + (z : ℤ) * S * S).toNat = x + y * S + z * S * S := by
    rw [show ((x : ℤ) + (y : ℤ) * S + (z : ℤ) * S * S) = ((x + y * S + z * S * S : ℕ) : ℤ) by
      push_cast; ring]
    exact Int.toNat_natCast _
  rw [hidx]
  have hdiv : (x + y * S + z * S * S) / S % S = y := by
    have h1 : x + y * S + z * S * S = x + (y + z * S) * S := by ring
    rw [h1, Nat.add_mul_div_right _ _ hS, Nat.div_eq_of_lt (by omega), Nat.zero_add,
      Nat.add_mul_mod_self_right, Nat.mod_eq_of_lt (by omega)]
  rw [hdiv]
  by_cases hcase : y = y0
  · subst hcase
    rw [if_pos rfl, if_pos (by norm_num)]
  · rw [if_neg hcase, if_neg (by exact_mod_cast hcase)]
    norm_num

/-- Unconditional form of `getVoxel_slab`, usable as a rewrite rule. -/
theorem getVoxel_slab_eq (S y0 b : ℕ) (x y z : ℤ) :
    getVoxel (slabFun S y0 b) x y z S =
      if 0 ≤ x ∧ x < (S : ℤ) ∧ 0 ≤ y ∧ y < (S : ℤ) ∧ 0 ≤ z ∧ z < (S : ℤ) ∧ y = (y0 : ℤ)
      then (b : ℤ) else 0 := by
  by_cases hin : 0 ≤ x ∧ x < (S : ℤ) ∧ 0 ≤ y ∧ y < (S : ℤ) ∧ 0 ≤ z ∧ z < (S : ℤ)
  · obtain ⟨h1, h2, h3, h4, h5, h6⟩ := hin
    rw [getVoxel_slab S y0 b x y z h1 h2 h3 h4 h5 h6]
    by_cases hy : y = (y0 : ℤ)
    · rw [if_pos hy, if_pos ⟨h1, h2, h3, h4, h5, h6, hy⟩]
    · rw [if_neg hy, if_neg (by tauto)]
  · rw [if_neg (by tauto)]
    unfold getVoxel
    rw [if_pos (by omega)]

/-- Sweep axis 0 over the slab: the mask is `-b` on column `i = y0` at
plane `-1`, `b` on that column at plane `S-1`, and `0` elsewhere. -/
theorem maskEntry_slab0 (S y0 b : ℕ) (p : ℤ) (i j : ℕ)
    (hy0 : y0 < S) (hb : 0 < b) (hi : i < S) (hj : j < S)
    (hp1 : -1 ≤ p) (hp2 : p ≤ (S : ℤ) - 1) :
    maskEntry (slabFun S y0 b) S 0 p i j =
      if i = y0 then
        (if p = -1 then -(b : ℤ) else if p = (S : ℤ) - 1 then (b : ℤ) else 0)
      else 0 := by
  unfold maskEntry
  norm_num [V3.axis, V3.add]
  rw [getVoxel_slab_eq, getVoxel_slab_eq]
  split_ifs <;> omega

/-- Sweep axis 1 over the slab: the mask is uniformly `-b` at plane
`y0 - 1`, uniformly `b` at plane `y0`, and `0` elsewhere. -/
theorem maskEntry_slab1 (S y0 b : ℕ) (p : ℤ) (i j : ℕ)
    (hy0 : y0 < S) (hb : 0 < b) (hi : i < S) (hj : j < S)
    (hp1 : -1 ≤ p) (hp2 : p ≤ (S : ℤ) - 1) :
    maskEntry (slabFun S y0 b) S 1 p i j =
      if p = (y0 : ℤ) - 1 then -(b : ℤ) else if p = (y0 : ℤ) then (b : ℤ) else 0 := by
  unfold maskEntry
  norm_num [V3.axis, V3.add]
  rw [getVoxel_slab_eq, getVoxel_slab_eq]
  split_ifs <;> omega

/-- Sweep axis 2 over the slab: the mask is `-b` on row `j = y0` at plane
`-1`, `b` on that row at plane `S-1`, and `0` elsewhere. -/
theorem maskEntry_slab2 (S y0 b : ℕ) (p : ℤ) (i j : ℕ)
    (hy0 : y0 < S) (hb : 0 < b) (hi : i < S) (hj : j < S)
    (hp1 : -1 ≤ p) (hp2 : p ≤ (S : ℤ) - 1) :
    maskEntry (slabFun S y0 b) S 2 p i j =
      if j = y0 then
        (if p = -1 then -(b : ℤ) else if p = (S : ℤ) - 1 then (b : ℤ) else 0)
      else 0 := by
  unfold maskEntry
  norm_num [V3.axis, V3.add]
  rw [getVoxel_slab_eq, getVoxel_slab_eq]
  split_ifs <;> omega

theorem gridIdx_mod (S i j : ℕ) (hi : i < S) : (i + j * S) % S = i := by
  rw [Nat.add_mul_mod_self_right, Nat.mod_eq_of_lt hi]

theorem gridIdx_div (S i j : ℕ) (hi : i < S) : (i + j * S) / S = j := by
  rw [Nat.add_mul_div_right _ _ (by omega : 0 < S), Nat.div_eq_of_lt hi, Nat.zero_add]

/-- A fold of plane quads over a range of plane indices that are all empty. -/
theorem foldrPlanes_nil {α : Type} (f : ℕ → List α) :
    ∀ (N a : ℕ), (∀ t, a ≤ t → t < a + N → f t = []) →
      (List.range' a N).foldr (fun t acc => f t ++ acc) [] = [] := by
  intro N
  induction N with
  | zero => intro a _; rfl
  | succ N ih =>
    intro a h
    rw [List.range'_succ]
    simp only [List.foldr_cons]
    rw [h a le_rfl (by omega), List.nil_append]
    exact ih (a + 1) (fun t h1 h2 => h t (by omega) (by omega))

/-- A fold of plane quads with a single non-empty plane. -/
theorem foldrPlanes_one {α : Type} (f : ℕ → List α) (t1 : ℕ) :
    ∀ (N a : ℕ), a ≤ t1 → t1 < a + N →
      (∀ t, a ≤ t → t < a + N → t ≠ t1 → f t = []) →
      (List.range' a N).foldr (fun t acc => f t ++ acc) [] = f t1 := by
  intro N
  induction N with
  | zero => intro a h1 h2 _; omega
  | succ N ih =>
    intro a h1 h2 h3
    rw [List.range'_succ]
    simp only [List.foldr_cons]
    by_cases ha : a = t1
    · subst ha
      rw [foldrPlanes_nil f N (a + 1) (fun t ht1 ht2 => h3 t (by omega) (by omega) (by omega)),
        List.append_nil]
    · rw [h3 a le_rfl (by omega) ha, List.nil_append]
      exact ih (a + 1) (by omega) (by omega) (fun t ht1 ht2 => h3 t (by omega) (by omega))

/-- A fold of plane quads with exactly two non-empty planes. -/
theorem foldrPlanes_two {α : Type} (f : ℕ → List α) (t1 t2 : ℕ) :
    ∀ (N a : ℕ), a ≤ t1 → t1 < t2 → t2 < a + N →
      (∀ t, a ≤ t → t < a + N → t ≠ t1 → t ≠ t2 → f t = []) →
      (List.range' a N).foldr (fun t acc => f t ++ acc) [] = f t1 ++ f t2 := by
  intro N
  induction N with
  | zero => intro a h1 h2 h3 _; omega
  | succ N ih =>
    intro a h1 h2 h3 h4
    rw [List.range'_succ]
    simp only [List.foldr_cons]
    by_cases ha : a = t1
    · subst ha
      rw [foldrPlanes_one f t2 N (a + 1) (by omega) (by omega)
        (fun t ht1 ht2 ht3 => h4 t (by omega) (by omega) (by omega) ht3)]
    · rw [h4 a le_rfl (by omega) ha (by omega), List.nil_append]
      exact ih (a + 1) (by omega) (by omega) (by omega)
        (fun t ht1 ht2 => h4 t (by omega) (by omega))

/-- Shorthand for the mask array of a plane, as `planeQuads` builds it. -/
theorem planeMask_cell (data : ℕ → ℕ) (S d : ℕ) (p : ℤ) (i j : ℕ) (hi : i < S) :
    maskEntry data S d p ((i + j * S) % S) ((i + j * S) / S) = maskEntry data S d p i j := by
  rw [gridIdx_mod S i j hi, gridIdx_div S i j hi]

/-- Sweep axis 0 on the slab emits exactly the west (`x = 0`) and east
(`x = S`) side quads, each `1 × S`. -/
theorem sweepQuads_slab0 (S y0 b : ℕ) (hS : 0 < S) (hy0 : y0 < S) (hb : 0 < b) :
    sweepQuads (slabFun S y0 b) S 0 =
      [⟨⟨0, (y0 : ℤ), 0⟩, ⟨0, 1, 0⟩, ⟨0, 0, (S : ℤ)⟩, false⟩,
       ⟨⟨(S : ℤ), (y0 : ℤ), 0⟩, ⟨0, 1, 0⟩, ⟨0, 0, (S : ℤ)⟩, true⟩] := by
  unfold sweepQuads
  rw [List.range_eq_range']
  rw [foldrPlanes_two (fun t => planeQuads (slabFun S y0 b) S 0 ((t : ℤ) - 1)) 0 S (S + 1) 0
    (by omega) (by omega) (by omega)
    (fun t ht1 ht2 ht3 ht4 => by
      show planeQuads (slabFun S y0 b) S 0 ((t : ℤ) - 1) = []
      unfold planeQuads
      rw [mergeRows_zero S (S + 1) _ 0 (fun i' j' h1 h2 h3 => by
        rw [planeMask_cell _ S 0 _ i' j' h1,
          maskEntry_slab0 S y0 b _ i' j' hy0 hb h1 h3 (by omega) (by omega)]
        split_ifs <;> omega)]
      simp)]
  have hq1 : planeQuads (slabFun S y0 b) S 0 (((0 : ℕ) : ℤ) - 1) =
      [⟨⟨0, (y0 : ℤ), 0⟩, ⟨0, 1, 0⟩, ⟨0, 0, (S : ℤ)⟩, false⟩] := by
    unfold planeQuads
    rw [mergeRows_singleCol S y0 (-(b : ℤ)) _ hy0 (by omega) (fun i' j' h1 h2 => by
      rw [planeMask_cell _ S 0 _ i' j' h1,
        maskEntry_slab0 S y0 b _ i' j' hy0 hb h1 h2 (by omega) (by omega)]
      split_ifs <;> omega)]
    simp only [List.map_cons, List.map_nil, toQuad, V3.axis, V3.add]
    norm_num [decide_eq_false_iff_not, decide_eq_true_eq]
  have hq2 : planeQuads (slabFun S y0 b) S 0 ((S : ℤ) - 1) =
      [⟨⟨(S : ℤ), (y0 : ℤ), 0⟩, ⟨0, 1, 0⟩, ⟨0, 0, (S : ℤ)⟩, true⟩] := by
    unfold planeQuads
    rw [mergeRows_singleCol S y0 ((b : ℤ)) _ hy0 (by omega) (fun i' j' h1 h2 => by
      rw [planeMask_cell _ S 0 _ i' j' h1,
        maskEntry_slab0 S y0 b _ i' j' hy0 hb h1 h2 (by omega) (by omega)]
      split_ifs <;> omega)]
    simp only [List.map_cons, List.map_nil, toQuad, V3.axis, V3.add]
    norm_num [decide_eq_false_iff_not, decide_eq_true_eq]
    all_goals omega
  rw [hq1, hq2]
  rfl

/-- Sweep axis 1 on the slab emits exactly the bottom (`y = y0`) and top
(`y = y0 + 1`) quads, each covering the full `S x S` area. -/
theorem sweepQuads_slab1 (S y0 b : ℕ) (hS : 0 < S) (hy0 : y0 < S) (hb : 0 < b) :
    sweepQuads (slabFun S y0 b) S 1 =
      [⟨⟨0, (y0 : ℤ), 0⟩, ⟨0, 0, (S : ℤ)⟩, ⟨(S : ℤ), 0, 0⟩, false⟩,
       ⟨⟨0, (y0 : ℤ) + 1, 0⟩, ⟨0, 0, (S : ℤ)⟩, ⟨(S : ℤ), 0, 0⟩, true⟩] := by
  unfold sweepQuads
  rw [List.range_eq_range']
  rw [foldrPlanes_two (fun t => planeQuads (slabFun S y0 b) S 1 ((t : ℤ) - 1)) y0 (y0 + 1)
    (S + 1) 0 (by omega) (by omega) (by omega)
    (fun t ht1 ht2 ht3 ht4 => by
      show planeQuads (slabFun S y0 b) S 1 ((t : ℤ) - 1) = []
      unfold planeQuads
      rw [mergeRows_zero S (S + 1) _ 0 (fun i' j' h1 h2 h3 => by
        rw [planeMask_cell _ S 1 _ i' j' h1,
          maskEntry_slab1 S y0 b _ i' j' hy0 hb h1 h3 (by omega) (by omega)]
        split_ifs <;> omega)]
      simp)]
  have hq1 : planeQuads (slabFun S y0 b) S 1 ((y0 : ℤ) - 1) =
      [⟨⟨0, (y0 : ℤ), 0⟩, ⟨0, 0, (S : ℤ)⟩, ⟨(S : ℤ), 0, 0⟩, false⟩] := by
    unfold planeQuads
    rw [mergeRows_uniform S (-(b : ℤ)) _ hS (by omega) (fun i' j' h1 h2 => by
      rw [planeMask_cell _ S 1 _ i' j' h1,
        maskEntry_slab1 S y0 b _ i' j' hy0 hb h1 h2 (by omega) (by omega)]
      split_ifs <;> omega)]
    simp only [List.map_cons, List.map_nil, toQuad, V3.axis, V3.add]
    norm_num [decide_eq_false_iff_not, decide_eq_true_eq]
  have hq2 : planeQuads (slabFun S y0 b) S 1 (((y0 + 1 : ℕ) : ℤ) - 1) =
      [⟨⟨0, (y0 : ℤ) + 1, 0⟩, ⟨0, 0, (S : ℤ)⟩, ⟨(S : ℤ), 0, 0⟩, true⟩] := by
    unfold planeQuads
    rw [mergeRows_uniform S ((b : ℤ)) _ hS (by omega) (fun i' j' h1 h2 => by
      rw [planeMask_cell _ S 1 _ i' j' h1,
        maskEntry_slab1 S y0 b _ i' j' hy0 hb h1 h2 (by omega) (by omega)]
      split_ifs <;> omega)]
    simp only [List.map_cons, List.map_nil, toQuad, V3.axis, V3.add]
    norm_num [decide_eq_false_iff_not, decide_eq_true_eq]
    all_goals omega
  rw [hq1, hq2]
  rfl

/-- Sweep axis 2 on the slab emits exactly the south (`z = 0`) and north
(`z = S`) side quads, each `S x 1`. -/
theorem sweepQuads_slab2 (S y0 b : ℕ) (hS : 0 < S) (hy0 : y0 < S) (hb : 0 < b) :
    sweepQuads (slabFun S y0 b) S 2 =
      [⟨⟨0, (y0 : ℤ), 0⟩, ⟨(S : ℤ), 0, 0⟩, ⟨0, 1, 0⟩, false⟩,
       ⟨⟨0, (y0 : ℤ), (S : ℤ)⟩, ⟨(S : ℤ), 0, 0⟩, ⟨0, 1, 0⟩, true⟩] := by
  unfold sweepQuads
  rw [List.range_eq_range']
  rw [foldrPlanes_two (fun t => planeQuads (slabFun S y0 b) S 2 ((t : ℤ) - 1)) 0 S (S + 1) 0
    (by omega) (by omega) (by omega)
    (fun t ht1 ht2 ht3 ht4 => by
      show planeQuads (slabFun S y0 b) S 2 ((t : ℤ) - 1) = []
      unfold planeQuads
      rw [mergeRows_zero S (S + 1) _ 0 (fun i' j' h1 h2 h3 => by
        rw [planeMask_cell _ S 2 _ i' j' h1,
          maskEntry_slab2 S y0 b _ i' j' hy0 hb h1 h3 (by omega) (by omega)]
        split_ifs <;> omega)]
      simp)]
  have hq1 : planeQuads (slabFun S y0 b) S 2 (((0 : ℕ) : ℤ) - 1) =
      [⟨⟨0, (y0 : ℤ), 0⟩, ⟨(S : ℤ), 0, 0⟩, ⟨0, 1, 0⟩, false⟩] := by
    unfold planeQuads
    rw [mergeRows_singleRow S y0 (-(b : ℤ)) _ hy0 (by omega) (fun i' j' h1 h2 => by
      rw [planeMask_cell _ S 2 _ i' j' h1,
        maskEntry_slab2 S y0 b _ i' j' hy0 hb h1 h2 (by omega) (by omega)]
      split_ifs <;> omega) (S + 1) 0 (by omega) (by omega)]
    simp only [List.map_cons, List.map_nil, toQuad, V3.axis, V3.add]
    norm_num [decide_eq_false_iff_not, decide_eq_true_eq]
  have hq2 : planeQuads (slabFun S y0 b) S 2 ((S : ℤ) - 1) =
      [⟨⟨0, (y0 : ℤ), (S : ℤ)⟩, ⟨(S : ℤ), 0, 0⟩, ⟨0, 1, 0⟩, true⟩] := by
    unfold planeQuads
    rw [mergeRows_singleRow S y0 ((b : ℤ)) _ hy0 (by omega) (fun i' j' h1 h2 => by
      rw [planeMask_cell _ S 2 _ i' j' h1,
        maskEntry_slab2 S y0 b _ i' j' hy0 hb h1 h2 (by omega) (by omega)]
      split_ifs <;> omega) (S + 1) 0 (by omega) (by omega)]
    simp only [List.map_cons, List.map_nil, toQuad, V3.axis, V3.add]
    norm_num [decide_eq_false_iff_not, decide_eq_true_eq]
    all_goals omega
  rw [hq1, hq2]
  rfl

/-- The full greedy mesher output on the slab: six quads. -/
theorem greedyQuads_slab (S y0 b : ℕ) (hS : 0 < S) (hy0 : y0 < S) (hb : 0 < b) :
    greedyQuads (slabFun S y0 b) S =
      [⟨⟨0, (y0 : ℤ), 0⟩, ⟨0, 1, 0⟩, ⟨0, 0, (S : ℤ)⟩, false⟩,
       ⟨⟨(S : ℤ), (y0 : ℤ), 0⟩, ⟨0, 1, 0⟩, ⟨0, 0, (S : ℤ)⟩, true⟩,
       ⟨⟨0, (y0 : ℤ), 0⟩, ⟨0, 0, (S : ℤ)⟩, ⟨(S : ℤ), 0, 0⟩, false⟩,
       ⟨⟨0, (y0 : ℤ) + 1, 0⟩, ⟨0, 0, (S : ℤ)⟩, ⟨(S : ℤ), 0, 0⟩, true⟩,
       ⟨⟨0, (y0 : ℤ), 0⟩, ⟨(S : ℤ), 0, 0⟩, ⟨0, 1, 0⟩, false⟩,
       ⟨⟨0, (y0 : ℤ), (S : ℤ)⟩, ⟨(S : ℤ), 0, 0⟩, ⟨0, 1, 0⟩, true⟩] := by
  unfold greedyQuads
  rw [sweepQuads_slab0 S y0 b hS hy0 hb, sweepQuads_slab1 S y0 b hS hy0 hb,
    sweepQuads_slab2 S y0 b hS hy0 hb]
  rfl

end Meshing

/-- **C3 counterexample.** On the concrete slab with `S = 2`, `y0 = 0`,
`b = 1`, the greedy mesher emits 6 quads, not the 2 quads the claim
states: the four exposed boundary side faces of the slab are merged and
emitted as well. -/
theorem c3_two_quads_counterexample :
    (Meshing.greedyQuads (slabFun 2 0 1) 2).length = 6 ∧
      (Meshing.greedyQuads (slabFun 2 0 1) 2).length ≠ 2 := by
  constructor <;> decide

/-- **C3 (amended).** For every chunk size `S ≥ 1`, slab layer `y0 < S` and
uniform non-AIR byte block type `b`, the greedy mesher on an `S x S x S`
buffer holding a one-voxel-tall `S x S` slab of `b` (AIR above and below)
emits exactly 6 quads: a bottom and a top quad each covering the full
`S x S` area, plus the four one-voxel-wide boundary side quads (west, east,
south, north), in that sweep order. -/
theorem c3_slab_six_quads (S y0 b : ℕ) (hS : 1 ≤ S) (hy0 : y0 < S) (hb : 0 < b)
    (hb' : b < 256) :
    Meshing.greedyQuads (slabFun S y0 b) S =
      [⟨⟨0, (y0 : ℤ), 0⟩, ⟨0, 1, 0⟩, ⟨0, 0, (S : ℤ)⟩, false⟩,
       ⟨⟨(S : ℤ), (y0 : ℤ), 0⟩, ⟨0, 1, 0⟩, ⟨0, 0, (S : ℤ)⟩, true⟩,
       ⟨⟨0, (y0 : ℤ), 0⟩, ⟨0, 0, (S : ℤ)⟩, ⟨(S : ℤ), 0, 0⟩, false⟩,
       ⟨⟨0, (y0 : ℤ) + 1, 0⟩, ⟨0, 0, (S : ℤ)⟩, ⟨(S : ℤ), 0, 0⟩, true⟩,
       ⟨⟨0, (y0 : ℤ), 0⟩, ⟨(S : ℤ), 0, 0⟩, ⟨0, 1, 0⟩, false⟩,
       ⟨⟨0, (y0 : ℤ), (S : ℤ)⟩, ⟨(S : ℤ), 0, 0⟩, ⟨0, 1, 0⟩, true⟩] :=
  Meshing.greedyQuads_slab S y0 b hS hy0 hb

/-- Witness for `c3_slab_six_quads` at `S = 2`, `y0 = 0`, `b = 1`. -/
theorem c3_slab_six_quads_witness :
    (1 ≤ 2 ∧ 0 < 2 ∧ 0 < 1 ∧ 1 < 256) ∧
      Meshing.greedyQuads (slabFun 2 0 1) 2 =
        [⟨⟨0, 0, 0⟩, ⟨0, 1, 0⟩, ⟨0, 0, 2⟩, false⟩,
         ⟨⟨2, 0, 0⟩, ⟨0, 1, 0⟩, ⟨0, 0, 2⟩, true⟩,
         ⟨⟨0, 0, 0⟩, ⟨0, 0, 2⟩, ⟨2, 0, 0⟩, false⟩,
         ⟨⟨0, 1, 0⟩, ⟨0, 0, 2⟩, ⟨2, 0, 0⟩, true⟩,
         ⟨⟨0, 0, 0⟩, ⟨2, 0, 0⟩, ⟨0, 1, 0⟩, false⟩,
         ⟨⟨0, 0, 2⟩, ⟨2, 0, 0⟩, ⟨0, 1, 0⟩, true⟩] :=
  ⟨⟨by decide, by decide, by decide, by decide⟩,
    by simpa using c3_slab_six_quads 2 0 1 (by decide) (by decide) (by decide) (by decide)⟩

/-- **C2 counterexample.** On the concrete slab with `S = 2`, `y0 = 0`,
`b = 1`, the first quad the greedy mesher emits has edge vectors
`du = (0,1,0)`, `dv = (0,0,2)` and negative mask sign; the claim's normal
`sign(mask) x unit(du x dv)` is `(-1, 0, 0)`, but the mesher pushes the
unnormalized `(-2, 0, 0)` (the cross product is not normalized before being
written to the normal buffer). -/
theorem c2_unit_normal_counterexample :
    (Meshing.greedyQuads (slabFun 2 0 1) 2).head? =
      some ⟨⟨0, 0, 0⟩, ⟨0, 1, 0⟩, ⟨0, 0, 2⟩, false⟩ ∧
    (Meshing.greedyMeshing (slabFun 2 0 1) 2).normals.take 12 =
      [-2, 0, 0, -2, 0, 0, -2, 0, 0, -2, 0, 0] ∧
    Meshing.specUnitNormal ⟨⟨0, 0, 0⟩, ⟨0, 1, 0⟩, ⟨0, 0, 2⟩, false⟩ = ⟨-1, 0, 0⟩ ∧
    ((-2 : ℤ) ≠ -1) := by
  refine ⟨by decide, by decide, by decide, by decide⟩

namespace Meshing

theorem growH_ge (mask : ℕ → ℤ) (S : ℕ) (c : ℤ) (n j w : ℕ) :
    ∀ fuel h, h ≤ growH mask S c n j w h fuel := by
  intro fuel
  induction fuel with
  | zero => intro h; simp [growH]
  | succ fuel ih =>
    intro h
    rw [growH]
    split
    · exact le_trans (Nat.le_succ h) (ih (h + 1))
    · exact le_refl h

/-- Every rectangle the row scan emits has extents at least 1 and a
non-zero mask value. -/
theorem mergeRow_mem (S j : ℕ) :
    ∀ fuel (mask : ℕ → ℤ) i r, r ∈ (mergeRow S j mask i fuel).1 →
      1 ≤ r.w ∧ 1 ≤ r.h ∧ r.c ≠ 0 := by
  intro fuel
  induction fuel with
  | zero => intro mask i r hr; simp [mergeRow] at hr
  | succ fuel ih =>
    intro mask i r hr
    simp only [mergeRow] at hr
    split at hr
    · split at hr
      · simp only [List.mem_cons] at hr
        rcases hr with rfl | hr
        · exact ⟨growW_ge mask S _ _ i S 1, growH_ge mask S _ _ j _ S 1, by assumption⟩
        · exact ih _ _ r hr
      · exact ih _ _ r hr
    · simp at hr

theorem mergeRows_mem (S : ℕ) :
    ∀ fuel (mask : ℕ → ℤ) j r, r ∈ mergeRows S mask j fuel →
      1 ≤ r.w ∧ 1 ≤ r.h ∧ r.c ≠ 0 := by
  intro fuel
  induction fuel with
  | zero => intro mask j r hr; simp [mergeRows] at hr
  | succ fuel ih =>
    intro mask j r hr
    simp only [mergeRows] at hr
    split at hr
    · rw [List.mem_append] at hr
      rcases hr with hr | hr
      · exact mergeRow_mem S j (S + 1) mask 0 r hr
      · exact ih _ _ r hr
    · simp at hr

theorem mem_foldr_append {α β : Type} (f : β → List α) (x : α) :
    ∀ l : List β, x ∈ l.foldr (fun t acc => f t ++ acc) [] → ∃ t ∈ l, x ∈ f t := by
  intro l
  induction l with
  | nil => intro hx; simp at hx
  | cons a l ih =>
    intro hx
    simp only [List.foldr_cons, List.mem_append] at hx
    rcases hx with hx | hx
    · exact ⟨a, List.mem_cons_self a l, hx⟩
    · obtain ⟨t, ht, hxt⟩ := ih hx
      exact ⟨t, List.mem_cons_of_mem a ht, hxt⟩

/-- Every quad the greedy mesher emits comes from a merged rectangle: an
axis `d < 3`, a plane `p`, and extents `w, h ≥ 1` with non-zero mask value. -/
theorem greedyQuads_mem (data : ℕ → ℕ) (S : ℕ) (q : Quad)
    (hq : q ∈ greedyQuads data S) :
    ∃ (d : ℕ) (p : ℤ) (r : Rect), d < 3 ∧ q = toQuad d p r ∧
      1 ≤ r.w ∧ 1 ≤ r.h ∧ r.c ≠ 0 := by
  have hsweep : ∀ d, q ∈ sweepQuads data S d →
      ∃ (p : ℤ) (r : Rect), q = toQuad d p r ∧ 1 ≤ r.w ∧ 1 ≤ r.h ∧ r.c ≠ 0 := by
    intro d hd
    obtain ⟨t, _, hmem⟩ := mem_foldr_append _ q _ hd
    unfold planeQuads at hmem
    obtain ⟨r, hr, hq⟩ := List.mem_map.mp hmem
    obtain ⟨h1, h2, h3⟩ := mergeRows_mem S (S + 1) _ 0 r hr
    exact ⟨(t : ℤ) - 1, r, hq.symm, h1, h2, h3⟩
  unfold greedyQuads at hq
  rw [List.mem_append, List.mem_append] at hq
  rcases hq with (hq | hq) | hq
  · obtain ⟨p, r, h⟩ := hsweep 0 hq
    exact ⟨0, p, r, by omega, h.1, h.2.1, h.2.2.1, h.2.2.2⟩
  · obtain ⟨p, r, h⟩ := hsweep 1 hq
    exact ⟨1, p, r, by omega, h.1, h.2.1, h.2.2.1, h.2.2.2⟩
  · obtain ⟨p, r, h⟩ := hsweep 2 hq
    exact ⟨2, p, r, by omega, h.1, h.2.1, h.2.2.1, h.2.2.2⟩

end Meshing

/-- The geometric orientation of the two triangles `addQuad` emits equals
the pushed normal, for either winding. -/
theorem quadWinding (x du dv : V3) (b : Bool) :
    (if b then
        V3.cross (V3.sub (x.add du) x) (V3.sub (x.add dv) x) =
            (if b then V3.cross du dv else V3.neg (V3.cross du dv)) ∧
        V3.cross (V3.sub ((x.add du).add dv) (x.add du)) (V3.sub (x.add dv) (x.add du)) =
            (if b then V3.cross du dv else V3.neg (V3.cross du dv))
      else
        V3.cross (V3.sub (x.add dv) x) (V3.sub (x.add du) x) =
            (if b then V3.cross du dv else V3.neg (V3.cross du dv)) ∧
        V3.cross (V3.sub (x.add dv) (x.add du)) (V3.sub ((x.add du).add dv) (x.add du)) =
            (if b then V3.cross du dv else V3.neg (V3.cross du dv))) := by
  cases b <;> simp [V3.cross, V3.sub, V3.add, V3.neg] <;> and_intros <;> ring

/-- **C2 (amended).** For every quad the greedy mesher of `meshing.ts`
emits: all 4 vertices carry the same normal, equal to `sign(mask)` times
the **unnormalized** cross product `du x dv` — which is `w*h` times the unit
normal of the specification, so it points in the same direction but is not
unit length for merged quads — and the triangle winding flips when the mask
sign is negative, so that for every sweep axis and both signs the winding's
geometric orientation (edge-vector cross product of each emitted triangle)
equals that pushed normal. (The separate `addQuad` of `chunk.worker.ts`
instead pushes the constant `(0, ±1, 0)` regardless of the sweep axis.) -/
theorem c2_normals_winding (data : ℕ → ℕ) (S : ℕ) (q : Meshing.Quad)
    (hq : q ∈ Meshing.greedyQuads data S) :
    ∃ (d w h : ℕ) (nrm : V3), d < 3 ∧ 1 ≤ w ∧ 1 ≤ h ∧
      nrm = (if q.pos then V3.cross q.du q.dv else V3.neg (V3.cross q.du q.dv)) ∧
      V3.cross q.du q.dv = V3.smul ((w : ℤ) * (h : ℤ)) (V3.axis d 1) ∧
      nrm = V3.smul ((w : ℤ) * (h : ℤ)) (Meshing.specUnitNormal q) ∧
      (∀ md : Meshing.MeshData,
        (Meshing.addQuad md q.x q.du q.dv q.pos).normals =
          md.normals ++ [nrm.x, nrm.y, nrm.z, nrm.x, nrm.y, nrm.z,
            nrm.x, nrm.y, nrm.z, nrm.x, nrm.y, nrm.z]) ∧
      (if q.pos then
          V3.cross (V3.sub (q.x.add q.du) q.x) (V3.sub (q.x.add q.dv) q.x) = nrm ∧
          V3.cross (V3.sub ((q.x.add q.du).add q.dv) (q.x.add q.du))
            (V3.sub (q.x.add q.dv) (q.x.add q.du)) = nrm
        else
          V3.cross (V3.sub (q.x.add q.dv) q.x) (V3.sub (q.x.add q.du) q.x) = nrm ∧
          V3.cross (V3.sub (q.x.add q.dv) (q.x.add q.du))
            (V3.sub ((q.x.add q.du).add q.dv) (q.x.add q.du)) = nrm) := by
  obtain ⟨d, p, r, hd, rfl, hw, hh, hc⟩ := Meshing.greedyQuads_mem data S q hq
  refine ⟨d, r.w, r.h, _, hd, hw, hh, rfl, ?_, ?_, ?_, ?_⟩
  · -- cross du dv = (w*h) • axis d
    interval_cases d <;>
      simp [Meshing.toQuad, V3.axis, V3.cross, V3.smul]
  · -- nrm = (w*h) • specUnitNormal q
    have hwh : (0 : ℤ) < (r.w : ℤ) * (r.h : ℤ) := by positivity
    interval_cases d <;>
      · by_cases hpos : 0 < r.c <;>
          simp [Meshing.toQuad, Meshing.specUnitNormal, V3.axis, V3.cross, V3.smul,
            V3.sgn, V3.neg, hpos, Int.sign_eq_one_iff_pos.mpr hwh]
  · -- addQuad pushes four copies of nrm
    intro md
    by_cases hpos : 0 < r.c <;>
      simp [Meshing.addQuad, Meshing.toQuad, V3.neg, hpos]
  · -- winding orientation matches nrm
    exact quadWinding _ _ _ _

/-- Witness for `c2_normals_winding` at the first quad of the `S = 2` slab run. -/
theorem c2_normals_winding_witness :
    c2wQuad ∈ Meshing.greedyQuads (slabFun 2 0 1) 2 ∧
    (∃ (d w h : ℕ) (nrm : V3), d < 3 ∧ 1 ≤ w ∧ 1 ≤ h ∧
      nrm = (if c2wQuad.pos then V3.cross c2wQuad.du c2wQuad.dv
        else V3.neg (V3.cross c2wQuad.du c2wQuad.dv)) ∧
      V3.cross c2wQuad.du c2wQuad.dv = V3.smul ((w : ℤ) * (h : ℤ)) (V3.axis d 1) ∧
      nrm = V3.smul ((w : ℤ) * (h : ℤ)) (Meshing.specUnitNormal c2wQuad) ∧
      (∀ md : Meshing.MeshData,
        (Meshing.addQuad md c2wQuad.x c2wQuad.du c2wQuad.dv c2wQuad.pos).normals =
          md.normals ++ [nrm.x, nrm.y, nrm.z, nrm.x, nrm.y, nrm.z,
            nrm.x, nrm.y, nrm.z, nrm.x, nrm.y, nrm.z]) ∧
      (if c2wQuad.pos then
          V3.cross (V3.sub (c2wQuad.x.add c2wQuad.du) c2wQuad.x)
              (V3.sub (c2wQuad.x.add c2wQuad.dv) c2wQuad.x) = nrm ∧
          V3.cross (V3.sub ((c2wQuad.x.add c2wQuad.du).add c2wQuad.dv) (c2wQuad.x.add c2wQuad.du))
            (V3.sub (c2wQuad.x.add c2wQuad.dv) (c2wQuad.x.add c2wQuad.du)) = nrm
        else
          V3.cross (V3.sub (c2wQuad.x.add c2wQuad.dv) c2wQuad.x)
              (V3.sub (c2wQuad.x.add c2wQuad.du) c2wQuad.x) = nrm ∧
          V3.cross (V3.sub (c2wQuad.x.add c2wQuad.dv) (c2wQuad.x.add c2wQuad.du))
            (V3.sub ((c2wQuad.x.add c2wQuad.du).add c2wQuad.dv)
              (c2wQuad.x.add c2wQuad.du)) = nrm)) :=
  ⟨by decide, c2_normals_winding (slabFun 2 0 1) 2 c2wQuad (by decide)⟩

namespace TerrainWorker

/-- A `foldl` whose every step adds a per-element amount to a measure. -/
theorem foldl_measure {α β : Type} (meas : β → ℕ) (g : α → ℕ) (f : β → α → β)
    (hstep : ∀ b a, meas (f b a) = meas b + g a) :
    ∀ (l : List α) (b : β), meas (l.foldl f b) = meas b + (l.map g).sum := by
  intro l
  induction l with
  | nil => intro b; simp
  | cons a l ih =>
    intro b
    simp only [List.foldl_cons, List.map_cons, List.sum_cons]
    rw [ih (f b a), hstep]
    omega

set_option maxHeartbeats 3200000 in
/-- Each visited voxel adds six index entries per exposed face. -/
theorem processCell_indices (v3 : ℕ → ℕ → ℕ → ℕ) (x y z : ℕ) (acc : WMesh × ℕ) :
    (processCell v3 x y z acc).1.indices.length =
      acc.1.indices.length + 6 * cellExposedCount v3 x y z := by
  simp only [processCell, cellExposedCount]
  split_ifs <;>
    (try simp only [addTopFace, addBottomFace, addFrontFace, addBackFace, addRightFace,
      addLeftFace, List.length_append, List.length_cons, List.length_nil]) <;>
    omega

theorem sum_map_six {l : List ℕ} {f : ℕ → ℕ} :
    (l.map fun a => 6 * f a).sum = 6 * (l.map f).sum := by
  induction l with
  | nil => rfl
  | cons a l ih => simp only [List.map_cons, List.sum_cons, ih]; ring

/-- The core counting fact: the face-culling mesher emits six index
entries (two triangles) per exposed face. -/
theorem meshFromVoxel3D_indices (v3 : ℕ → ℕ → ℕ → ℕ) (S : ℕ) :
    (meshFromVoxel3D v3 S).indices.length = 6 * exposedFaceCount v3 S := by
  unfold meshFromVoxel3D exposedFaceCount
  have h1 : ∀ (xi y : ℕ) (acc : WMesh × ℕ),
      ((List.range S).foldl (fun acc zi => processCell v3 (xi + 1) y (zi + 1) acc) acc).1.indices.length
        = acc.1.indices.length +
          ((List.range S).map (fun zi => 6 * cellExposedCount v3 (xi + 1) y (zi + 1))).sum :=
    fun xi y acc => foldl_measure (fun acc => acc.1.indices.length) _ _
      (fun b a => processCell_indices v3 (xi + 1) y (a + 1) b) _ acc
  have h2 : ∀ (xi : ℕ) (acc : WMesh × ℕ),
      ((List.range 32).foldl (fun acc y =>
        (List.range S).foldl (fun acc zi => processCell v3 (xi + 1) y (zi + 1) acc) acc) acc).1.indices.length
        = acc.1.indices.length +
          ((List.range 32).map (fun y =>
            ((List.range S).map (fun zi => 6 * cellExposedCount v3 (xi + 1) y (zi + 1))).sum)).sum :=
    fun xi acc => foldl_measure (fun acc => acc.1.indices.length) _ _
      (fun b a => h1 xi a b) _ acc
  have h3 : ∀ (acc : WMesh × ℕ),
      ((List.range S).foldl (fun acc xi =>
        (List.range 32).foldl (fun acc y =>
          (List.range S).foldl (fun acc zi => processCell v3 (xi + 1) y (zi + 1) acc) acc) acc)
        acc).1.indices.length
        = acc.1.indices.length +
          ((List.range S).map (fun xi =>
            ((List.range 32).map (fun y =>
              ((List.range S).map (fun zi => 6 * cellExposedCount v3 (xi + 1) y (zi + 1))).sum)).sum)).sum :=
    fun acc => foldl_measure (fun acc => acc.1.indices.length) _ _
      (fun b a => h2 a b) _ acc
  rw [h3 (WMesh.empty, 0)]
  simp only [sum_map_six]
  simp [WMesh.empty]

end TerrainWorker

/-- **C4.** For every serialized voxel buffer and chunk size, the
face-culling mesher's triangle count (`indices.length / 3`) equals twice
the number of exposed faces computed by direct neighbor inspection on the
deserialized padded array (a face is exposed iff the adjacent cell is AIR,
with `y` bounded by `[0, 32)`); in particular a single solid voxel
surrounded by AIR yields exactly 6 quads (6 exposed faces), 24 vertices
and 36 index entries. -/
theorem c4_face_culling_count (data : List ℕ) (S : ℕ) :
    ((TerrainWorker.generateMeshFromVoxelData data S).indices.length =
        6 * TerrainWorker.exposedFaceCount (TerrainWorker.deserializeVoxelData data S) S ∧
      (TerrainWorker.generateMeshFromVoxelData data S).indices.length / 3 =
        2 * TerrainWorker.exposedFaceCount (TerrainWorker.deserializeVoxelData data S) S) ∧
    ((TerrainWorker.meshFromVoxel3D TerrainWorker.singleVoxel 1).positions.length / 3 = 24 ∧
      (TerrainWorker.meshFromVoxel3D TerrainWorker.singleVoxel 1).indices.length = 36 ∧
      TerrainWorker.exposedFaceCount TerrainWorker.singleVoxel 1 = 6) := by
  refine ⟨⟨TerrainWorker.meshFromVoxel3D_indices _ S, ?_⟩, by decide, by decide, by decide⟩
  unfold TerrainWorker.generateMeshFromVoxelData
  rw [TerrainWorker.meshFromVoxel3D_indices _ S]
  omega

namespace TerrainWorker

theorem length_flatMap_const {α β : Type} (l : List α) (f : α → List β) (L : ℕ)
    (h : ∀ a ∈ l, (f a).length = L) : (l.flatMap f).length = l.length * L := by
  induction l with
  | nil => simp
  | cons a l ih =>
    simp only [List.flatMap_cons, List.length_append, List.length_cons,
      h a (List.mem_cons_self a l)]
    rw [ih (fun a ha => h a (List.mem_cons_of_mem _ ha))]
    ring

theorem flatMap_range_getD (n L : ℕ) (f : ℕ → List ℕ) (hL : ∀ k, (f k).length = L)
    (k r : ℕ) (hk : k < n) (hr : r < L) :
    ((List.range n).flatMap f).getD (k * L + r) 0 = (f k).getD r 0 := by
  induction n with
  | zero => omega
  | succ n ih =>
    rw [List.range_succ, List.flatMap_append]
    have hlen : ((List.range n).flatMap f).length = n * L :=
      length_flatMap_const _ f L (fun a _ => hL a) |>.trans (by simp)
    by_cases hkn : k < n
    · have hlt : k * L + r < n * L := by
        calc k * L + r < k * L + L := by omega
        _ = (k + 1) * L := by ring
        _ ≤ n * L := Nat.mul_le_mul_right _ (by omega)
      rw [List.getD_append _ _ _ _ (by omega)]
      exact ih hkn
    · have hk' : k = n := by omega
      subst hk'
      rw [List.getD_append_right _ _ _ _ (by omega)]
      simp only [hlen]
      rw [show k * L + r - k * L = r by omega]
      simp [List.flatMap_cons]

theorem getD_map_range (n : ℕ) (g : ℕ → ℕ) (z : ℕ) (hz : z < n) :
    ((List.range n).map g).getD z 0 = g z := by
  rw [List.getD_eq_getElem _ _ (by simpa using hz)]
  simp

end TerrainWorker

/-- **C8.** Deserializing a serialized padded voxel buffer reproduces the
identical block value at every in-range coordinate of the
`(S+2) x 32 x (S+2)` array. -/
theorem c8_serialize_round_trip (v3 : ℕ → ℕ → ℕ → ℕ) (S x y z : ℕ)
    (hx : x < S + 2) (hy : y < 32) (hz : z < S + 2) :
    TerrainWorker.deserializeVoxelData (TerrainWorker.serializeVoxelData v3 S) S x y z =
      v3 x y z := by
  unfold TerrainWorker.deserializeVoxelData TerrainWorker.serializeVoxelData
  have hyz : y * (S + 2) + z < 32 * (S + 2) := by
    have := Nat.mul_le_mul_right (S + 2) (show y ≤ 31 by omega)
    omega
  have hidx : x * (32 * (S + 2)) + y * (S + 2) + z =
      x * (32 * (S + 2)) + (y * (S + 2) + z) := by ring
  rw [hidx, TerrainWorker.flatMap_range_getD (S + 2) (32 * (S + 2)) _
    (fun k => by
      rw [TerrainWorker.length_flatMap_const _ _ (S + 2) (fun a _ => by simp)]
      simp)
    x _ hx hyz,
    TerrainWorker.flatMap_range_getD 32 (S + 2) _ (fun k => by simp) y z hy hz,
    TerrainWorker.getD_map_range _ _ _ hz]

/-- Witness for `c8_serialize_round_trip` at a concrete buffer and cell. -/
theorem c8_serialize_round_trip_witness :
    2 < 1 + 2 ∧ 31 < 32 ∧ 0 < 1 + 2 ∧
      TerrainWorker.deserializeVoxelData
        (TerrainWorker.serializeVoxelData (fun x y z => x * 100 + y * 2 + z) 1) 1 2 31 0 =
        2 * 100 + 31 * 2 + 0 :=
  ⟨by decide, by decide, by decide,
    c8_serialize_round_trip (fun x y z => x * 100 + y * 2 + z) 1 2 31 0
      (by decide) (by decide) (by decide)⟩

/-- **C10.** The coordinator's flat edit index addresses exactly the cell
of the serialized padded buffer that the worker's deserialization maps
back to interior cell `[lx+1][ly][lz+1]`: the index formulas agree, and a
block value written at that index is the value the worker reads for that
voxel when re-meshing. -/
theorem c10_edit_index_compat (buf : List ℕ) (S lx ly lz b : ℕ)
    (hx : lx < S) (hy : ly < 32) (hz : lz < S)
    (hlen : buf.length = (S + 2) * (32 * (S + 2))) :
    OptMgr.voxelIndexOf S lx ly lz =
      (lx + 1) * (32 * (S + 2)) + ly * (S + 2) + (lz + 1) ∧
    TerrainWorker.deserializeVoxelData (buf.set (OptMgr.voxelIndexOf S lx ly lz) b) S
      (lx + 1) ly (lz + 1) = b := by
  have heq : OptMgr.voxelIndexOf S lx ly lz =
      (lx + 1) * (32 * (S + 2)) + ly * (S + 2) + (lz + 1) := by
    unfold OptMgr.voxelIndexOf
    ring
  refine ⟨heq, ?_⟩
  have hyz : ly * (S + 2) + (lz + 1) < 32 * (S + 2) := by
    have := Nat.mul_le_mul_right (S + 2) (show ly ≤ 31 by omega)
    omega
  have hidx : OptMgr.voxelIndexOf S lx ly lz < buf.length := by
    rw [hlen, heq]
    calc (lx + 1) * (32 * (S + 2)) + ly * (S + 2) + (lz + 1)
        = (lx + 1) * (32 * (S + 2)) + (ly * (S + 2) + (lz + 1)) := by ring
      _ < (lx + 1) * (32 * (S + 2)) + 32 * (S + 2) := by omega
      _ = (lx + 2) * (32 * (S + 2)) := by ring
      _ ≤ (S + 2) * (32 * (S + 2)) := Nat.mul_le_mul_right _ (by omega)
  unfold TerrainWorker.deserializeVoxelData
  rw [show (lx + 1) * (32 * (S + 2)) + ly * (S + 2) + (lz + 1) =
    OptMgr.voxelIndexOf S lx ly lz from heq.symm]
  rw [List.getD_eq_getElem _ _ (by simpa using hidx)]
  simp [List.getElem_set_self]

/-- Witness for `c10_edit_index_compat` at a concrete buffer and cell. -/
theorem c10_edit_index_compat_witness :
    0 < 1 ∧ 5 < 32 ∧ 0 < 1 ∧ (List.replicate 288 0).length = 3 * (32 * 3) ∧
      TerrainWorker.deserializeVoxelData
        ((List.replicate 288 0).set (OptMgr.voxelIndexOf 1 0 5 0) 7) 1 1 5 1 = 7 :=
  ⟨by decide, by decide, by decide, by norm_num [List.length_replicate],
    (c10_edit_index_compat (List.replicate 288 0) 1 0 5 0 7
      (by decide) (by decide) (by decide) (by norm_num [List.length_replicate])).2⟩

namespace Meshing

theorem addQuad_Ginv (md : MeshData) (x du dv : V3) (b : Bool) (h : Ginv md) :
    Ginv (addQuad md x du dv b) := by
  obtain ⟨h1, h2, h3, h4⟩ := h
  unfold addQuad Ginv
  cases b <;>
    · simp only [Bool.false_eq_true, eq_self_iff_true, if_true, if_false,
        List.length_append, List.length_cons, List.length_nil, List.mem_append,
        List.mem_cons, List.not_mem_nil, or_false]
      refine ⟨by omega, by omega, ?_, by omega⟩
      intro ix hix
      rcases hix with hix | hix
      · have := h3 ix hix
        omega
      · rcases hix with rfl | rfl | rfl | rfl | rfl | rfl <;> omega

end Meshing

namespace TerrainWorker

theorem foldl_preserve {α β : Type} (P : β → Prop) (f : β → α → β)
    (hstep : ∀ b a, P b → P (f b a)) :
    ∀ (l : List α) (b : β), P b → P (l.foldl f b) := by
  intro l
  induction l with
  | nil => intro b hb; exact hb
  | cons a l ih =>
    intro b hb
    exact ih (f b a) (hstep b a hb)

theorem getBlockColor_length (bt : ℕ) : (getBlockColor bt).length = 3 := by
  unfold getBlockColor
  split_ifs <;> rfl

/-- A single face push of the common shape preserves the invariant. -/
theorem Winv_push (md : WMesh) (vi : ℕ) (vs ns : List ℤ) (uv : List ℕ) (cs : List ℚ)
    (hvs : vs.length = 12) (hns : ns.length = 12) (hcs : cs.length = 12)
    (h : Winv (md, vi)) :
    Winv (⟨md.positions ++ vs, md.normals ++ ns, md.uvs ++ uv, md.colors ++ cs,
      md.indices ++ [vi, vi + 1, vi + 2, vi, vi + 2, vi + 3]⟩, vi + 4) := by
  obtain ⟨h0, h1, h2, h3, h4, h5⟩ := h
  dsimp only at h0 h1 h2 h3 h4 h5
  unfold Winv
  simp only [List.length_append, List.mem_append, List.mem_cons, List.not_mem_nil,
    or_false, hvs, hns, hcs, List.length_cons, List.length_nil]
  refine ⟨by omega, by omega, by omega, by omega, ?_, by omega⟩
  intro ix hix
  rcases hix with hix | hix
  · have := h4 ix hix
    omega
  · rcases hix with rfl | rfl | rfl | rfl | rfl | rfl <;> omega

theorem Winv_top (x y z : ℤ) (c : List ℚ) (hc : c.length = 3) (a : WMesh × ℕ)
    (h : Winv a) : Winv (addTopFace a.1 x y z c a.2, a.2 + 4) := by
  unfold addTopFace
  exact Winv_push a.1 a.2 _ _ _ _ (by simp) (by simp) (by simp [hc]) (by simpa using h)

theorem Winv_bottom (x y z : ℤ) (c : List ℚ) (hc : c.length = 3) (a : WMesh × ℕ)
    (h : Winv a) : Winv (addBottomFace a.1 x y z c a.2, a.2 + 4) := by
  unfold addBottomFace
  exact Winv_push a.1 a.2 _ _ _ _ (by simp) (by simp) (by simp [hc]) (by simpa using h)

theorem Winv_front (x y z : ℤ) (c : List ℚ) (hc : c.length = 3) (a : WMesh × ℕ)
    (h : Winv a) : Winv (addFrontFace a.1 x y z c a.2, a.2 + 4) := by
  unfold addFrontFace
  exact Winv_push a.1 a.2 _ _ _ _ (by simp) (by simp) (by simp [hc]) (by simpa using h)

theorem Winv_back (x y z : ℤ) (c : List ℚ) (hc : c.length = 3) (a : WMesh × ℕ)
    (h : Winv a) : Winv (addBackFace a.1 x y z c a.2, a.2 + 4) := by
  unfold addBackFace
  exact Winv_push a.1 a.2 _ _ _ _ (by simp) (by simp) (by simp [hc]) (by simpa using h)

theorem Winv_right (x y z : ℤ) (c : List ℚ) (hc : c.length = 3) (a : WMesh × ℕ)
    (h : Winv a) : Winv (addRightFace a.1 x y z c a.2, a.2 + 4) := by
  unfold addRightFace
  exact Winv_push a.1 a.2 _ _ _ _ (by simp) (by simp) (by simp [hc]) (by simpa using h)

theorem Winv_left (x y z : ℤ) (c : List ℚ) (hc : c.length = 3) (a : WMesh × ℕ)
    (h : Winv a) : Winv (addLeftFace a.1 x y z c a.2, a.2 + 4) := by
  unfold addLeftFace
  exact Winv_push a.1 a.2 _ _ _ _ (by simp) (by simp) (by simp [hc]) (by simpa using h)

/-- A conditional face step preserves the invariant. -/
theorem Winv_condStep (a : WMesh × ℕ) (cond : Prop) [Decidable cond]
    (face : WMesh × ℕ → WMesh × ℕ) (ha : Winv a) (hf : Winv a → Winv (face a)) :
    Winv (if cond then face a else a) := by
  split
  · exact hf ha
  · exact ha

theorem processCell_Winv (v3 : ℕ → ℕ → ℕ → ℕ) (x y z : ℕ) (acc : WMesh × ℕ)
    (h : Winv acc) : Winv (processCell v3 x y z acc) := by
  simp only [processCell]
  by_cases h0 : v3 x y z = 0
  · simp only [h0, if_pos]
    exact h
  · simp only [h0, if_false]
    have hc := getBlockColor_length (v3 x y z)
    have q1 := Winv_condStep acc (32 ≤ y + 1 ∨ v3 x (y + 1) z = 0)
      (fun a => (addTopFace a.1 ((x : ℤ) - 1) (y : ℤ) ((z : ℤ) - 1)
        (getBlockColor (v3 x y z)) a.2, a.2 + 4)) h
      (Winv_top _ _ _ _ hc acc)
    have q2 := Winv_condStep _ (y = 0 ∨ v3 x (y - 1) z = 0)
      (fun a => (addBottomFace a.1 ((x : ℤ) - 1) (y : ℤ) ((z : ℤ) - 1)
        (getBlockColor (v3 x y z)) a.2, a.2 + 4)) q1
      (Winv_bottom _ _ _ _ hc _)
    have q3 := Winv_condStep _ (v3 x y (z - 1) = 0)
      (fun a => (addFrontFace a.1 ((x : ℤ) - 1) (y : ℤ) ((z : ℤ) - 1)
        (getBlockColor (v3 x y z)) a.2, a.2 + 4)) q2
      (Winv_front _ _ _ _ hc _)
    have q4 := Winv_condStep _ (v3 x y (z + 1) = 0)
      (fun a => (addBackFace a.1 ((x : ℤ) - 1) (y : ℤ) ((z : ℤ) - 1)
        (getBlockColor (v3 x y z)) a.2, a.2 + 4)) q3
      (Winv_back _ _ _ _ hc _)
    have q5 := Winv_condStep _ (v3 (x + 1) y z = 0)
      (fun a => (addRightFace a.1 ((x : ℤ) - 1) (y : ℤ) ((z : ℤ) - 1)
        (getBlockColor (v3 x y z)) a.2, a.2 + 4)) q4
      (Winv_right _ _ _ _ hc _)
    exact Winv_condStep _ (v3 (x - 1) y z = 0)
      (fun a => (addLeftFace a.1 ((x : ℤ) - 1) (y : ℤ) ((z : ℤ) - 1)
        (getBlockColor (v3 x y z)) a.2, a.2 + 4)) q5
      (Winv_left _ _ _ _ hc _)

theorem meshFromVoxel3D_Winv (v3 : ℕ → ℕ → ℕ → ℕ) (S : ℕ) :
    Winv (((List.range S).foldl (fun acc xi =>
      (List.range 32).foldl (fun acc y =>
        (List.range S).foldl (fun acc zi =>
          processCell v3 (xi + 1) y (zi + 1) acc) acc) acc) (WMesh.empty, 0))) := by
  apply foldl_preserve Winv _ (fun b a hb => ?_) _ _ (by simp [Winv, WMesh.empty])
  apply foldl_preserve Winv _ (fun b2 a2 hb2 => ?_) _ _ hb
  apply foldl_preserve Winv _ (fun b3 a3 hb3 => processCell_Winv v3 (a + 1) a2 (a3 + 1) b3 hb3)
    _ _ hb2

end TerrainWorker

/-- **C9.** Mesh-buffer invariants. For every input to the greedy mesher:
`positions` and `normals` have equal length, it is a multiple of 3, every
index entry addresses an existing vertex (`ix < positions.length / 3`),
and the index count is a multiple of 3 (whole triangles). For every input
to the face-culling mesher, the same holds and additionally
`colors.length` equals `positions.length`. -/
theorem c9_mesh_invariants (data : ℕ → ℕ) (S : ℕ) (buf : List ℕ) (S2 : ℕ) :
    ((Meshing.greedyMeshing data S).positions.length =
        (Meshing.greedyMeshing data S).normals.length ∧
      (Meshing.greedyMeshing data S).positions.length % 3 = 0 ∧
      (∀ ix ∈ (Meshing.greedyMeshing data S).indices,
        ix < (Meshing.greedyMeshing data S).positions.length / 3) ∧
      (Meshing.greedyMeshing data S).indices.length % 3 = 0) ∧
    ((TerrainWorker.generateMeshFromVoxelData buf S2).positions.length =
        (TerrainWorker.generateMeshFromVoxelData buf S2).normals.length ∧
      (TerrainWorker.generateMeshFromVoxelData buf S2).positions.length =
        (TerrainWorker.generateMeshFromVoxelData buf S2).colors.length ∧
      (TerrainWorker.generateMeshFromVoxelData buf S2).positions.length % 3 = 0 ∧
      (∀ ix ∈ (TerrainWorker.generateMeshFromVoxelData buf S2).indices,
        ix < (TerrainWorker.generateMeshFromVoxelData buf S2).positions.length / 3) ∧
      (TerrainWorker.generateMeshFromVoxelData buf S2).indices.length % 3 = 0) := by
  constructor
  · have hg : Meshing.Ginv (Meshing.greedyMeshing data S) := by
      unfold Meshing.greedyMeshing
      exact TerrainWorker.foldl_preserve Meshing.Ginv _
        (fun b a hb => Meshing.addQuad_Ginv b a.x a.du a.dv a.pos hb) _ _
        (by simp [Meshing.Ginv, Meshing.MeshData.empty])
    exact hg
  · have hw := TerrainWorker.meshFromVoxel3D_Winv
      (TerrainWorker.deserializeVoxelData buf S2) S2
    obtain ⟨_, h1, h2, h3, h4, h5⟩ := hw
    exact ⟨h1, h2, h3, h4, h5⟩

/-- Witness for `c9_mesh_invariants` at concrete inputs. -/
theorem c9_mesh_invariants_witness :
    ((Meshing.greedyMeshing (slabFun 2 0 1) 2).positions.length =
        (Meshing.greedyMeshing (slabFun 2 0 1) 2).normals.length ∧
      (Meshing.greedyMeshing (slabFun 2 0 1) 2).positions.length % 3 = 0 ∧
      (∀ ix ∈ (Meshing.greedyMeshing (slabFun 2 0 1) 2).indices,
        ix < (Meshing.greedyMeshing (slabFun 2 0 1) 2).positions.length / 3) ∧
      (Meshing.greedyMeshing (slabFun 2 0 1) 2).indices.length % 3 = 0) ∧
    ((TerrainWorker.generateMeshFromVoxelData [] 0).positions.length =
        (TerrainWorker.generateMeshFromVoxelData [] 0).normals.length ∧
      (TerrainWorker.generateMeshFromVoxelData [] 0).positions.length =
        (TerrainWorker.generateMeshFromVoxelData [] 0).colors.length ∧
      (TerrainWorker.generateMeshFromVoxelData [] 0).positions.length % 3 = 0 ∧
      (∀ ix ∈ (TerrainWorker.generateMeshFromVoxelData [] 0).indices,
        ix < (TerrainWorker.generateMeshFromVoxelData [] 0).positions.length / 3) ∧
      (TerrainWorker.generateMeshFromVoxelData [] 0).indices.length % 3 = 0) :=
  c9_mesh_invariants (slabFun 2 0 1) 2 [] 0

/-- JS `Math.floor(p / CHUNK_SIZE)` (here `Int.fdiv`) recovers the chunk
coordinate from a chunk-relative decomposition `c * 16 + l`, `0 <= l < 16`. -/
theorem fdiv_chunk (c l : ℤ) (h0 : 0 ≤ l) (h1 : l < 16) :
    Int.fdiv (c * 16 + l) (OptMgr.CHUNK_SIZE : ℤ) = c := by
  have h : ((OptMgr.CHUNK_SIZE : ℕ) : ℤ) = 16 := by norm_num [OptMgr.CHUNK_SIZE]
  rw [h, Int.fdiv_eq_ediv _ (by norm_num)]
  omega

/-- The `l = 0` case of `fdiv_chunk`. -/
theorem fdiv_chunk0 (c : ℤ) : Int.fdiv (c * 16) (OptMgr.CHUNK_SIZE : ℤ) = c := by
  have h := fdiv_chunk c 0 le_rfl (by norm_num)
  simpa using h

/-- `regenerateChunkMesh` on a resident chunk with no pending re-mesh:
posts one `regenerate` carrying the buffer and tombstones the record. -/
theorem regenerateChunkMesh_post (st : OptMgr.State) (k : ℤ × ℤ) (c : OptMgr.ChunkData)
    (h : st.chunks k = some c) (hnr : c.needsRemesh = false) :
    OptMgr.regenerateChunkMesh st k =
      ({ chunks := fun q => if q = k then
           some { c with needsRemesh := true, voxels := List.replicate c.voxels.length 0 }
         else st.chunks q },
       [OptMgr.Msg.regenerate c.x c.z c.voxels OptMgr.CHUNK_SIZE]) := by
  simp [OptMgr.regenerateChunkMesh, h, hnr]

/-- `updateNeighborChunksIfNeeded` at local x = 0 with local z away from
both z boundaries and a resident generated x-1 neighbor regenerates that
neighbor only. -/
theorem updateNeighbor_left (st : OptMgr.State) (cx cz lz : ℤ)
    (hlzne0 : lz ≠ 0) (hlzne15 : lz ≠ 15) (chL : OptMgr.ChunkData)
    (hL : st.chunks (cx - 1, cz) = some chL) (hgenL : chL.isGenerated = true)
    (hnrL : chL.needsRemesh = false) :
    OptMgr.updateNeighborChunksIfNeeded st cx cz 0 lz =
      ({ chunks := fun q => if q = (cx - 1, cz) then
           some { chL with needsRemesh := true, voxels := List.replicate chL.voxels.length 0 }
         else st.chunks q },
       [OptMgr.Msg.regenerate chL.x chL.z chL.voxels OptMgr.CHUNK_SIZE]) := by
  have h15 : ((OptMgr.CHUNK_SIZE : ℕ) : ℤ) - 1 = 15 := by norm_num [OptMgr.CHUNK_SIZE]
  unfold OptMgr.updateNeighborChunksIfNeeded
  simp only [h15]
  simp only [OptMgr.neighborKey, hL, hgenL, hlzne0, hlzne15]
  norm_num
  rw [regenerateChunkMesh_post st (cx - 1, cz) chL hL hnrL]
  simp [hgenL]

/-- The message trace of the edit tail (re-mesh the edited chunk, then
update neighbors) in the local-x-0 scenario. -/
theorem editTail_msgs (st1 : OptMgr.State) (cx cz lz : ℤ) (ch1 chL : OptMgr.ChunkData)
    (h1 : st1.chunks (cx, cz) = some ch1) (hnr1 : ch1.needsRemesh = false)
    (hL : st1.chunks (cx - 1, cz) = some chL) (hgenL : chL.isGenerated = true)
    (hnrL : chL.needsRemesh = false) (hne : cx - 1 ≠ cx)
    (hlzne0 : lz ≠ 0) (hlzne15 : lz ≠ 15) :
    (OptMgr.regenerateChunkMesh st1 (cx, cz)).2 ++
      (OptMgr.updateNeighborChunksIfNeeded
        (OptMgr.regenerateChunkMesh st1 (cx, cz)).1 cx cz 0 lz).2 =
      [OptMgr.Msg.regenerate ch1.x ch1.z ch1.voxels OptMgr.CHUNK_SIZE,
       OptMgr.Msg.regenerate chL.x chL.z chL.voxels OptMgr.CHUNK_SIZE] := by
  rw [regenerateChunkMesh_post st1 (cx, cz) ch1 h1 hnr1]
  dsimp only
  rw [updateNeighbor_left
      { chunks := fun q => if q = (cx, cz) then
          some { ch1 with needsRemesh := true, voxels := List.replicate ch1.voxels.length 0 }
        else st1.chunks q }
      cx cz lz hlzne0 hlzne15 chL (by simp [Prod.mk.injEq, hne, hL]) hgenL hnrL]
  rfl

/-- The edit tail never creates or deletes a chunk record. -/
theorem editTail_dom (st1 : OptMgr.State) (cx cz lz : ℤ) (ch1 chL : OptMgr.ChunkData)
    (h1 : st1.chunks (cx, cz) = some ch1) (hnr1 : ch1.needsRemesh = false)
    (hL : st1.chunks (cx - 1, cz) = some chL) (hgenL : chL.isGenerated = true)
    (hnrL : chL.needsRemesh = false) (hne : cx - 1 ≠ cx)
    (hlzne0 : lz ≠ 0) (hlzne15 : lz ≠ 15) :
    ∀ k, (((OptMgr.updateNeighborChunksIfNeeded
        (OptMgr.regenerateChunkMesh st1 (cx, cz)).1 cx cz 0 lz).1.chunks k).isSome) =
      (st1.chunks k).isSome := by
  rw [regenerateChunkMesh_post st1 (cx, cz) ch1 h1 hnr1]
  dsimp only
  rw [updateNeighbor_left
      { chunks := fun q => if q = (cx, cz) then
          some { ch1 with needsRemesh := true, voxels := List.replicate ch1.voxels.length 0 }
        else st1.chunks q }
      cx cz lz hlzne0 hlzne15 chL (by simp [Prod.mk.injEq, hne, hL]) hgenL hnrL]
  intro k
  dsimp only
  by_cases hk1 : k = (cx - 1, cz)
  · subst hk1
    simp [Prod.mk.injEq, hne, hL]
  · by_cases hk2 : k = (cx, cz)
    · subst hk2
      rw [h1]
      split <;> simp
    · simp [hk1, hk2]

/-- **C6.** Placing a block at local x = 0 of a resident generated chunk
(no re-mesh pending) whose x-1 neighbor is resident, generated and has no
re-mesh pending, at a local z away from both z boundaries, returns success
and posts `regenerate` for exactly the edited chunk (with the updated
buffer) and then the x-1 neighbor - no z-neighbor messages - and the set
of resident chunk keys is unchanged, so no new chunk is created. -/
theorem c6_neighbor_regen (st : OptMgr.State) (cx cz lz py : ℤ) (bt : ℕ)
    (ch chL : OptMgr.ChunkData)
    (hch : st.chunks (cx, cz) = some ch) (hgen : ch.isGenerated = true)
    (hnr : ch.needsRemesh = false)
    (hchL : st.chunks (cx - 1, cz) = some chL) (hgenL : chL.isGenerated = true)
    (hnrL : chL.needsRemesh = false)
    (hlz0 : 0 ≤ lz) (hlz1 : lz < 16) (hlzne0 : lz ≠ 0) (hlzne15 : lz ≠ 15)
    (hpy0 : 0 ≤ py) (hpy1 : py < 32) :
    (OptMgr.placeBlock st (cx * 16) py (cz * 16 + lz) bt).2.2 = true ∧
    (OptMgr.placeBlock st (cx * 16) py (cz * 16 + lz) bt).2.1 =
      [OptMgr.Msg.regenerate ch.x ch.z
         (ch.voxels.set (OptMgr.voxelIndexOf OptMgr.CHUNK_SIZE 0 py.toNat lz.toNat) bt)
         OptMgr.CHUNK_SIZE,
       OptMgr.Msg.regenerate chL.x chL.z chL.voxels OptMgr.CHUNK_SIZE] ∧
    (∀ k, ((OptMgr.placeBlock st (cx * 16) py (cz * 16 + lz) bt).1.chunks k).isSome =
      (st.chunks k).isSome) := by
  have h16 : ((OptMgr.CHUNK_SIZE : ℕ) : ℤ) = 16 := by norm_num [OptMgr.CHUNK_SIZE]
  have h32 : ((OptMgr.WORLD_HEIGHT : ℕ) : ℤ) = 32 := by norm_num [OptMgr.WORLD_HEIGHT]
  have hfx : (cx * 16).fdiv 16 = cx := by
    have h := fdiv_chunk0 cx
    rwa [h16] at h
  have hfz : (cz * 16 + lz).fdiv 16 = cz := by
    have h := fdiv_chunk cz lz hlz0 hlz1
    rwa [h16] at h
  have hne : cx - 1 ≠ cx := by omega
  simp only [OptMgr.placeBlock, h16, h32, hfx, hfz, hch, hgen, sub_self,
    add_sub_cancel_left, Int.toNat_zero]
  rw [if_neg (by simp), if_neg (by omega)]
  set st1 : OptMgr.State :=
    ⟨fun k => if k = (cx, cz) then
        some ⟨ch.x, ch.z,
          ch.voxels.set (OptMgr.voxelIndexOf OptMgr.CHUNK_SIZE 0 py.toNat lz.toNat) bt,
          true, ch.needsRemesh⟩
      else st.chunks k⟩ with hst1
  have h1 : st1.chunks (cx, cz) =
      some ⟨ch.x, ch.z,
        ch.voxels.set (OptMgr.voxelIndexOf OptMgr.CHUNK_SIZE 0 py.toNat lz.toNat) bt,
        true, ch.needsRemesh⟩ := by
    simp [hst1]
  have hL1 : st1.chunks (cx - 1, cz) = some chL := by
    simp [hst1, Prod.mk.injEq, hne, hchL]
  refine ⟨rfl, ?_, ?_⟩
  · exact editTail_msgs st1 cx cz lz _ chL h1 hnr hL1 hgenL hnrL hne hlzne0 hlzne15
  · intro k
    rw [editTail_dom st1 cx cz lz _ chL h1 hnr hL1 hgenL hnrL hne hlzne0 hlzne15 k]
    by_cases hk : k = (cx, cz)
    · subst hk
      simp [hst1, hch]
    · simp [hst1, hk]

/-- Witness for `c6_neighbor_regen` on a concrete two-chunk store. -/
theorem c6_neighbor_regen_witness :
    (c6wState.chunks (0, 0) = some c6wCh ∧ c6wCh.isGenerated = true ∧
     c6wCh.needsRemesh = false ∧ c6wState.chunks (0 - 1, 0) = some c6wChL ∧
     c6wChL.isGenerated = true ∧ c6wChL.needsRemesh = false ∧
     (0 : ℤ) ≤ 1 ∧ (1 : ℤ) < 16 ∧ (1 : ℤ) ≠ 0 ∧ (1 : ℤ) ≠ 15 ∧
     (0 : ℤ) ≤ 0 ∧ (0 : ℤ) < 32) ∧
    ((OptMgr.placeBlock c6wState (0 * 16) 0 (0 * 16 + 1) 7).2.2 = true ∧
     (OptMgr.placeBlock c6wState (0 * 16) 0 (0 * 16 + 1) 7).2.1 =
       [OptMgr.Msg.regenerate c6wCh.x c6wCh.z
          (c6wCh.voxels.set (OptMgr.voxelIndexOf OptMgr.CHUNK_SIZE 0 (0 : ℤ).toNat (1 : ℤ).toNat) 7)
          OptMgr.CHUNK_SIZE,
        OptMgr.Msg.regenerate c6wChL.x c6wChL.z c6wChL.voxels OptMgr.CHUNK_SIZE] ∧
     (∀ k, ((OptMgr.placeBlock c6wState (0 * 16) 0 (0 * 16 + 1) 7).1.chunks k).isSome =
       (c6wState.chunks k).isSome)) :=
  ⟨⟨by decide, by decide, by decide, by decide, by decide, by decide,
    by decide, by decide, by decide, by decide, by decide, by decide⟩,
   c6_neighbor_regen c6wState 0 0 1 0 7 c6wCh c6wChL (by decide) (by decide) (by decide)
     (by decide) (by decide) (by decide) (by decide) (by decide) (by decide) (by decide)
     (by decide) (by decide)⟩

/-- **C7.** `removeBlock` rejects with result `false`, the unchanged state
and no posted message when the in-bounds target cell is already AIR, when
the resolved chunk is absent, and when it is resident but not generated. -/
theorem c7_remove_air_noop (st : OptMgr.State) (cx cz lx py lz : ℤ)
    (hlx0 : 0 ≤ lx) (hlx1 : lx < 16) (hpy0 : 0 ≤ py) (hpy1 : py < 32)
    (hlz0 : 0 ≤ lz) (hlz1 : lz < 16) :
    (∀ ch, st.chunks (cx, cz) = some ch → ch.isGenerated = true →
      ch.voxels.getD (OptMgr.voxelIndexOf OptMgr.CHUNK_SIZE lx.toNat py.toNat lz.toNat) 0 = 0 →
      OptMgr.removeBlock st (cx * 16 + lx) py (cz * 16 + lz) = (st, [], false)) ∧
    (st.chunks (cx, cz) = none →
      OptMgr.removeBlock st (cx * 16 + lx) py (cz * 16 + lz) = (st, [], false)) ∧
    (∀ ch, st.chunks (cx, cz) = some ch → ch.isGenerated = false →
      OptMgr.removeBlock st (cx * 16 + lx) py (cz * 16 + lz) = (st, [], false)) := by
  have h16 : ((OptMgr.CHUNK_SIZE : ℕ) : ℤ) = 16 := by norm_num [OptMgr.CHUNK_SIZE]
  have h32 : ((OptMgr.WORLD_HEIGHT : ℕ) : ℤ) = 32 := by norm_num [OptMgr.WORLD_HEIGHT]
  have hfx : (cx * 16 + lx).fdiv 16 = cx := by
    have h := fdiv_chunk cx lx hlx0 hlx1
    rwa [h16] at h
  have hfz : (cz * 16 + lz).fdiv 16 = cz := by
    have h := fdiv_chunk cz lz hlz0 hlz1
    rwa [h16] at h
  refine ⟨?_, ?_, ?_⟩
  · intro ch hch hgen hair
    simp only [OptMgr.removeBlock, h16, h32, hfx, hfz, hch, hgen, add_sub_cancel_left]
    rw [if_neg (by simp), if_neg (by omega), if_pos hair]
  · intro hnone
    simp only [OptMgr.removeBlock, h16, h32, hfx, hfz, hnone]
  · intro ch hch hngen
    simp only [OptMgr.removeBlock, h16, h32, hfx, hfz, hch, hngen]
    rw [if_pos trivial]

/-- Witness for `c7_remove_air_noop`: removing from an AIR cell of a
concrete generated chunk is rejected without mutation or messages. -/
theorem c7_remove_air_noop_witness :
    ((0 : ℤ) ≤ 1 ∧ (1 : ℤ) < 16 ∧ (0 : ℤ) ≤ 2 ∧ (2 : ℤ) < 32 ∧ (0 : ℤ) ≤ 3 ∧ (3 : ℤ) < 16) ∧
    (c7wState.chunks (0, 0) = some c7wCh ∧ c7wCh.isGenerated = true ∧
     c7wCh.voxels.getD
       (OptMgr.voxelIndexOf OptMgr.CHUNK_SIZE (1 : ℤ).toNat (2 : ℤ).toNat (3 : ℤ).toNat) 0 = 0) ∧
    OptMgr.removeBlock c7wState (0 * 16 + 1) 2 (0 * 16 + 3) = (c7wState, [], false) :=
  ⟨⟨by decide, by decide, by decide, by decide, by decide, by decide⟩,
   ⟨by decide, by decide, by decide⟩,
   (c7_remove_air_noop c7wState 0 0 1 2 3 (by decide) (by decide) (by decide)
     (by decide) (by decide) (by decide)).1 c7wCh (by decide) (by decide) (by decide)⟩

/-- **C5 counterexample.** `ChunkData` carries no generation counter and
`handleEnhancedChunkGenerated` installs every response. Starting from the
empty store, deliver the second-generation response (mesh payload 2)
first and the first-generation response (mesh payload 1) second: the
store ends with mesh payload 1 installed — the response with the older
generation counter was installed, not dropped. -/
theorem c5_stale_drop_counterexample :
    (EnhMgr.handleEnhancedChunkGenerated
        (EnhMgr.handleEnhancedChunkGenerated
          ⟨fun _ => none, fun _ => false⟩ ⟨0, 0, 2⟩) ⟨0, 0, 1⟩).chunks (0, 0) =
      some ⟨0, 0, some 1, true, true⟩ ∧ (1 : ℕ) ≠ 2 := by
  constructor
  · rfl
  · decide

/-- **C5 (amended).** When two generate responses for the same chunk key
are delivered in either order, the store ends in the state implied by the
response delivered **last**: the handler keeps no generation counter, so
every response is installed unconditionally and an older response
delivered second overwrites a newer one. -/
theorem c5_last_response_wins (st : EnhMgr.State) (r1 r2 : EnhMgr.GenResponse)
    (hx : r1.chunkX = r2.chunkX) (hz : r1.chunkZ = r2.chunkZ) :
    ((EnhMgr.handleEnhancedChunkGenerated
        (EnhMgr.handleEnhancedChunkGenerated st r1) r2).chunks (r2.chunkX, r2.chunkZ)).map
      (fun c => (c.mesh, c.isGenerated, c.isVisible)) = some (some r2.meshData, true, true) ∧
    ((EnhMgr.handleEnhancedChunkGenerated
        (EnhMgr.handleEnhancedChunkGenerated st r2) r1).chunks (r1.chunkX, r1.chunkZ)).map
      (fun c => (c.mesh, c.isGenerated, c.isVisible)) = some (some r1.meshData, true, true) := by
  constructor <;> simp [EnhMgr.handleEnhancedChunkGenerated]

/-- Witness for `c5_last_response_wins` on concrete responses. -/
theorem c5_last_response_wins_witness :
    ((0 : ℤ) = 0 ∧ (0 : ℤ) = 0) ∧
    (((EnhMgr.handleEnhancedChunkGenerated
        (EnhMgr.handleEnhancedChunkGenerated ⟨fun _ => none, fun _ => false⟩ ⟨0, 0, 1⟩)
        ⟨0, 0, 2⟩).chunks (0, 0)).map
      (fun c => (c.mesh, c.isGenerated, c.isVisible)) = some (some 2, true, true) ∧
    ((EnhMgr.handleEnhancedChunkGenerated
        (EnhMgr.handleEnhancedChunkGenerated ⟨fun _ => none, fun _ => false⟩ ⟨0, 0, 2⟩)
        ⟨0, 0, 1⟩).chunks (0, 0)).map
      (fun c => (c.mesh, c.isGenerated, c.isVisible)) = some (some 1, true, true)) :=
  ⟨⟨rfl, rfl⟩,
    c5_last_response_wins ⟨fun _ => none, fun _ => false⟩ ⟨0, 0, 1⟩ ⟨0, 0, 2⟩ rfl rfl⟩

/-- Witness for `c1_mask_formula` at a concrete buffer and cell. -/
theorem c1_mask_formula_witness :
    (0 : ℕ) < 3 ∧ (-1 : ℤ) ≤ 0 ∧ (0 : ℤ) ≤ (2 : ℕ) - 2 ∧ 0 < 2 ∧ 0 < 2 ∧
      Meshing.maskEntry (fun _ => 1) 2 0 0 0 0 = Meshing.specMaskEntry (fun _ => 1) 2 0 0 0 0 :=
  ⟨by decide, by decide, by decide, by decide, by decide,
    c1_mask_formula (fun _ => 1) 2 0 0 0 0 (by decide) (by decide) (by decide)
      (by decide) (by decide)⟩
